import Mathlib

set_option maxHeartbeats 1000000
set_option exponentiation.threshold 400

/-!
Shallow embedding of the TWS trade-book extractor core (src/main.py).

The three core functions are translated from the source:
  processExecution / processExecutions  -- process_executions, per record and per batch
  mark_assigned_options                 -- mark_assigned_options
  process_combos                        -- process_combos

Python floats that are carried as record fields are modelled as rationals;
the float values produced by float() on a string are modelled by the type
PyFloat, which separates finite values (rationals) from the infinities and
nan, because int(float('inf')) raises an OverflowError that the source does
not catch.  A value that may be the empty string or a number is modelled as
Option Rat (none = the empty string).  Code that can raise an uncaught
exception returns Except Unit; the error value models the exception
escaping to the caller.  The Python local security_info of
process_executions persists across loop iterations, so the per-batch
function threads the last assigned value: a record of an unhandled
instrument class raises NameError only when no earlier iteration assigned
the local.
-/

/-- Value of a decimal digit character. -/
def digitVal (c : Char) : Nat := c.toNat - 48

/-- Numeric value of a list of decimal digit characters (most significant first). -/
def digitsToNat (cs : List Char) : Nat := cs.foldl (fun a c => a * 10 + digitVal c) 0

/-- Models Python int(s) on a slice: succeeds exactly on a nonempty all-digit string.
(Pythonic forms with surrounding whitespace, an explicit sign or digit-group
underscores are not modelled; no claim depends on them.) -/
def pyIntDigits (cs : List Char) : Option Nat :=
  if cs ≠ [] ∧ cs.all Char.isDigit then some (digitsToNat cs) else none

/-- The value of Python float(s): a finite value (held exactly as a rational;
binary rounding of the decimal literal is not modelled), one of the two
infinities, or nan.  The infinities matter because int() raises an uncaught
OverflowError on them, while int(nan) raises a caught ValueError. -/
inductive PyFloat where
  | fin (q : ℚ)
  | pinf
  | ninf
  | nan
deriving DecidableEq, Repr

/-- Negation of a float value (the leading '-' of a parsed literal). -/
def pfNeg : PyFloat → PyFloat
  | .fin q => .fin (-q)
  | .pinf => .ninf
  | .ninf => .pinf
  | .nan => .nan

def pfIsInf : PyFloat → Bool
  | .pinf => true
  | .ninf => true
  | _ => false

def pfIsInfO : Option PyFloat → Bool
  | some f => pfIsInf f
  | none => false

/-- ASCII lower-casing, for float()'s case-insensitive special names. -/
def lowerChar (c : Char) : Char :=
  if 65 ≤ c.toNat ∧ c.toNat ≤ 90 then Char.ofNat (c.toNat + 32) else c

/-- The special names float() accepts (case-insensitively): inf, infinity, nan. -/
def pyFloatSpecial (cs : List Char) : Option PyFloat :=
  let l := cs.map lowerChar
  if l = "inf".toList ∨ l = "infinity".toList then some .pinf
  else if l = "nan".toList then some .nan
  else none

/-- Exponent part of a float literal: an optional sign and a nonempty digit run.
The power is computed on the natural-number side so the kernel can evaluate it. -/
def pyExpPart (cs : List Char) : Option ℚ :=
  match cs with
  | '+' :: ds =>
    if ds ≠ [] ∧ ds.all Char.isDigit then some (((10 ^ digitsToNat ds : ℕ) : ℚ)) else none
  | '-' :: ds =>
    if ds ≠ [] ∧ ds.all Char.isDigit then some ((((10 ^ digitsToNat ds : ℕ) : ℚ))⁻¹) else none
  | ds =>
    if ds ≠ [] ∧ ds.all Char.isDigit then some (((10 ^ digitsToNat ds : ℕ) : ℚ)) else none

/-- Magnitude part of Python float(s): digits, optionally a dot and more digits
(at least one digit overall), optionally an exponent.  The value is exact: the
overflow of a huge finite literal to an infinite double is not modelled, in line
with the rational model of floats; the special names inf/infinity/nan are handled
separately by pyFloatSpecial. -/
def pyFloatMag (cs : List Char) : Option ℚ :=
  let intPart := cs.takeWhile Char.isDigit
  let rest := cs.dropWhile Char.isDigit
  match rest with
  | [] => if intPart = [] then none else some ((digitsToNat intPart : ℚ))
  | '.' :: rest2 =>
    let frac := rest2.takeWhile Char.isDigit
    let rest3 := rest2.dropWhile Char.isDigit
    if intPart = [] ∧ frac = [] then none
    else
      let m : ℚ := (digitsToNat intPart : ℚ) + (digitsToNat frac : ℚ) / ((10 ^ frac.length : ℕ) : ℚ)
      match rest3 with
      | [] => some m
      | e :: rest4 =>
        if e = 'e' ∨ e = 'E' then (pyExpPart rest4).map (fun ex => m * ex) else none
  | e :: rest4 =>
    if (e = 'e' ∨ e = 'E') ∧ intPart ≠ [] then
      (pyExpPart rest4).map (fun ex => (digitsToNat intPart : ℚ) * ex)
    else none

/-- An unsigned float literal: one of the special names, else a magnitude. -/
def pyFloatUnsigned (cs : List Char) : Option PyFloat :=
  match pyFloatSpecial cs with
  | some f => some f
  | none => (pyFloatMag cs).map PyFloat.fin

/-- Models Python float(s): an optional sign, then an unsigned literal.
(Surrounding whitespace and digit-group underscores are not modelled;
no claim depends on them.) -/
def pyFloatChars (cs : List Char) : Option PyFloat :=
  match cs with
  | [] => none
  | c :: rest =>
    if c = '+' then pyFloatUnsigned rest
    else if c = '-' then (pyFloatUnsigned rest).map pfNeg
    else pyFloatUnsigned cs

/-- Models Python float(s). -/
def pyFloat (s : String) : Option PyFloat := pyFloatChars s.toList

/-- Helper for pySplit: accumulates the current word (reversed) and splits on whitespace. -/
def wordsAux : List Char → List Char → List String
  | [], cur => if cur = [] then [] else [String.mk cur.reverse]
  | c :: rest, cur =>
    if c.isWhitespace then
      if cur = [] then wordsAux rest [] else String.mk cur.reverse :: wordsAux rest []
    else wordsAux rest (c :: cur)

/-- Models Python str.split() with no arguments: split on whitespace runs, no empty tokens. -/
def pySplit (s : String) : List String := wordsAux s.toList []

/-- A parsed timestamp (the fields datetime.strptime extracts for the formats used). -/
structure DT where
  day : Nat
  month : Nat
  year : Nat
  hour : Nat
  minute : Nat
  second : Nat
deriving DecidableEq, Repr

def isLeap (y : Nat) : Bool := (y % 4 == 0 && y % 100 != 0) || (y % 400 == 0)

def daysInMonth (m y : Nat) : Nat :=
  if m = 2 then (if isLeap y then 29 else 28)
  else if m = 4 ∨ m = 6 ∨ m = 9 ∨ m = 11 then 30 else 31

/-- Grab a run of 1..maxLen digits from the front; fails if there is no digit or the run
is longer than maxLen (mirrors the bounded numeric fields of strptime). -/
def grabNum (maxLen : Nat) (cs : List Char) : Option (Nat × List Char) :=
  let ds := cs.takeWhile Char.isDigit
  if ds = [] ∨ maxLen < ds.length then none
  else some (digitsToNat ds, cs.dropWhile Char.isDigit)

/-- Grab exactly n digits from the front (strptime %Y is a fixed four-digit field). -/
def grabNumExact (n : Nat) (cs : List Char) : Option (Nat × List Char) :=
  let ds := cs.takeWhile Char.isDigit
  if ds.length = n then some (digitsToNat ds, cs.dropWhile Char.isDigit)
  else none

def expectChar (c : Char) : List Char → Option (List Char)
  | x :: rest => if x = c then some rest else none
  | [] => none

/-- One or more whitespace characters (strptime treats whitespace in the format as a run). -/
def skipWs : List Char → Option (List Char)
  | c :: rest => if c.isWhitespace then some (rest.dropWhile Char.isWhitespace) else none
  | [] => none

/-- Parse the time-of-day tail HH:MM:SS with strptime's field ranges. -/
def parseClock (cs : List Char) : Option (Nat × Nat × Nat) := do
  let (hh, r1) ← grabNum 2 cs
  let r2 ← expectChar ':' r1
  let (mi, r3) ← grabNum 2 r2
  let r4 ← expectChar ':' r3
  let (ss, r5) ← grabNum 2 r4
  if r5 = [] ∧ hh ≤ 23 ∧ mi ≤ 59 ∧ ss ≤ 59 then some (hh, mi, ss) else none

/-- Models datetime.strptime(s, "%d.%m.%Y %H:%M:%S") including date validation. -/
def parseDT (s : String) : Option DT := do
  let (d, r1) ← grabNum 2 s.toList
  let r2 ← expectChar '.' r1
  let (m, r3) ← grabNum 2 r2
  let r4 ← expectChar '.' r3
  let (y, r5) ← grabNumExact 4 r4
  let r6 ← skipWs r5
  let (hh, mi, ss) ← parseClock r6
  if 1 ≤ d ∧ 1 ≤ m ∧ m ≤ 12 ∧ d ≤ daysInMonth m y ∧ 1 ≤ y then
    some ⟨d, m, y, hh, mi, ss⟩
  else none

def pad2 (n : Nat) : String := if n < 10 then "0" ++ toString n else toString n

/-- Models dt.strftime("%d.%m.%Y %H:%M:%S"). -/
def fmtDT (t : DT) : String :=
  pad2 t.day ++ "." ++ pad2 t.month ++ "." ++ toString t.year ++ " " ++
    pad2 t.hour ++ ":" ++ pad2 t.minute ++ ":" ++ pad2 t.second

/-- Models datetime.strptime(s, "%Y%m%d  %H:%M:%S"): an eight-digit date run,
whitespace, then the clock.  (Shorter date runs that strptime's backtracking
regular expression could split as %Y%m%d are not modelled; no claim depends
on them.) -/
def parseExecTime (s : String) : Option DT :=
  let cs := s.toList
  let ds := cs.takeWhile Char.isDigit
  if ds.length = 8 then
    let y := digitsToNat (ds.take 4)
    let m := digitsToNat ((ds.drop 4).take 2)
    let d := digitsToNat (ds.drop 6)
    match skipWs (cs.dropWhile Char.isDigit) with
    | none => none
    | some r =>
      match parseClock r with
      | none => none
      | some (hh, mi, ss) =>
        if 1 ≤ d ∧ 1 ≤ m ∧ m ≤ 12 ∧ d ≤ daysInMonth m y ∧ 1 ≤ y then
          some ⟨d, m, y, hh, mi, ss⟩
        else none
  else none

/-- A normalized trade record: the dict built at the end of process_executions. -/
structure Trade where
  Account : String
  Action : String
  Date_Time : String
  Quantity : ℚ
  Symbol : String
  Security_Info : String
  Currency : String
  Price : ℚ
  Commission : ℚ
  Unrealized_PnL : Option ℚ
  Realized_PnL : Option ℚ
  Exchange : String
deriving DecidableEq, Repr

/-- Contract fields read by process_executions.  The strike is a Python float
and can be infinite or nan, which is why it is a PyFloat: str() of an infinite
strike places the token inf or -inf in the security description, and float() of
that token later feeds int() in process_combos. -/
structure RawContract where
  symbol : String
  secType : String
  lastTradeDateOrContractMonth : String
  strike : PyFloat
  right : String
  currency : String
  exchange : String
deriving DecidableEq, Repr

/-- Execution fields read by process_executions. -/
structure RawExecution where
  acctNumber : String
  side : String
  time : String
  shares : ℚ
  price : ℚ
  execId : String
  orderRef : String
deriving DecidableEq, Repr

/-- One element of app.executions. -/
structure ExecInfo where
  contract : RawContract
  execution : RawExecution
deriving DecidableEq, Repr

/-- The realizedPNL field of a commission report entry: either a Python float, or a
non-float value carrying the result of an attempted float() conversion
(none when the conversion would raise). -/
inductive RawPnl where
  | rfloat (q : ℚ)
  | rother (conv : Option ℚ)
deriving DecidableEq, Repr

/-- One entry of app.commission_report.  The float-valued report fields are
modelled as rationals; infinite report values are not modelled and no claim
depends on them. -/
structure CommissionRecord where
  commission : ℚ
  currency : String
  realizedPNL : Option RawPnl
deriving DecidableEq, Repr

abbrev CommMap := List (String × CommissionRecord)

/-- MAX_FLOAT_SENTINEL = 1.7976931348623157e+308 (the integer is computed on the
natural-number side so that the kernel can evaluate comparisons against it). -/
def MAX_FLOAT_SENTINEL : ℚ := ((17976931348623157 * 10 ^ 292 : ℕ) : ℚ)

def monthName (m : Nat) : String :=
  match m with
  | 0 => "DEC" | 1 => "JAN" | 2 => "FEB" | 3 => "MAR" | 4 => "APR" | 5 => "MAY"
  | 6 => "JUN" | 7 => "JUL" | 8 => "AUG" | 9 => "SEP" | 10 => "OCT" | 11 => "NOV"
  | 12 => "DEC" | _ => ""

/-- str(year)[-2:]. -/
def lastTwo (s : String) : String := String.mk ((s.toList.reverse.take 2).reverse)

/-- Python str() of the strike float inside the f-string: integral values render
with a trailing ".0", the infinities as inf and -inf, nan as nan; non-integral
finite values are rendered as a rational (only the integral and special cases
are exercised by the spec and claims). -/
def strikeRepr : PyFloat → String
  | .fin q => if q.den = 1 then toString q.num ++ ".0" else toString q
  | .pinf => "inf"
  | .ninf => "-inf"
  | .nan => "nan"

/-- Does 'OptTrader' occur in the order reference (Python: 'OptTrader' in str(order_ref)). -/
def beginsWith : List Char → List Char → Bool
  | [], _ => true
  | _ :: _, [] => false
  | n :: ns, h :: hs => (n == h) && beginsWith ns hs

def hasSub (needle : List Char) : List Char → Bool
  | [] => beginsWith needle []
  | h :: hs => beginsWith needle (h :: hs) || hasSub needle hs

def containsOptTrader (s : String) : Bool := hasSub "OptTrader".toList s.toList

/-- The three int() slices of the expiry string (lines 123-125): year from the
first four characters, month from the next two, day from the next two; none when
any int() raises ValueError. -/
def expiryParts (s : String) : Option (Nat × Nat × Nat) :=
  match pyIntDigits (s.toList.take 4),
        pyIntDigits ((s.toList.drop 4).take 2),
        pyIntDigits ((s.toList.drop 6).take 2) with
  | some y, some m, some d => some (y, m, d)
  | _, _, _ => none

/-- The security_info computation of process_executions (lines 119-132), given
the current value of the function-local security_info (none = not yet assigned).
For a secType other than STK, OPT, FOP the local is not reassigned: the record
is built with the value left over from an earlier iteration, and only when no
iteration assigned it yet does the record construction raise NameError.  For
OPT/FOP, int() on a malformed expiry slice raises ValueError, and a month of
13..99 makes month_names[month-1] raise IndexError: both modelled as errors.
A month of 0 selects month_names[-1] = "DEC" (Python negative indexing), which
does not raise. -/
def securityInfo (prev : Option String) (c : RawContract) : Except Unit String :=
  if c.secType = "STK" then .ok "STOCK"
  else if c.secType = "OPT" ∨ c.secType = "FOP" then
    match expiryParts c.lastTradeDateOrContractMonth with
    | some (y, m, d) =>
      if m ≤ 12 then
        .ok (monthName m ++ "'" ++ pad2 d ++ "'" ++ lastTwo (toString y) ++ " " ++
          strikeRepr c.strike ++ " " ++ (if c.right = "C" then "CALL" else "PUT"))
      else .error ()
    | none => .error ()
  else
    match prev with
    | some s => .ok s
    | none => .error ()

/-- Line 95: action = 'BOT' if execution.side == 'BOT' else 'SLD'.  The side value
'BOT' is the wire encoding of a bought fill. -/
def initialAction (e : RawExecution) : String := if e.side = "BOT" then "BOT" else "SLD"

/-- Lines 98-103: format the execution time, falling back to the raw string. -/
def execTimeOf (e : RawExecution) : String :=
  match parseExecTime e.time with
  | some dt => fmtDT dt
  | none => e.time

/-- Lines 135-138: commission_value from the commission report, default 0.0. -/
def commissionOf (cm : CommMap) (execId : String) : ℚ :=
  match cm.lookup execId with
  | some cr => cr.commission
  | none => 0

/-- Lines 136-139: realized_pnl_from_tws (None when the execution id is absent). -/
def rawPnlOf (cm : CommMap) (execId : String) : Option RawPnl :=
  match cm.lookup execId with
  | some cr => cr.realizedPNL
  | none => none

/-- Lines 152-165: the Realized_PnL value, empty when the report is absent or the
value is the float sentinel.  The source's abs(x) == MAX_FLOAT_SENTINEL test is
written as the two signed equalities, which is the same predicate on rationals. -/
def realizedOf (cm : CommMap) (execId : String) : Option ℚ :=
  match rawPnlOf cm execId with
  | none => none
  | some (.rfloat q) =>
    if q = MAX_FLOAT_SENTINEL ∨ q = -MAX_FLOAT_SENTINEL then none else some q
  | some (.rother conv) => conv

/-- The record built at lines 167-180, given the already-computed security_info. -/
def normalizeTrade (info : ExecInfo) (cm : CommMap) (security_info : String) : Trade :=
  let e := info.execution
  let c := info.contract
  let commission_value := commissionOf cm e.execId
  { Account := e.acctNumber
    Action := if e.price = 0 ∧ commission_value = 0 then "EXPIRED" else initialAction e
    Date_Time := execTimeOf e
    Quantity := e.shares
    Symbol := c.symbol
    Security_Info := security_info
    Currency := c.currency
    Price := e.price
    Commission := commission_value
    Unrealized_PnL :=
      if containsOptTrader e.orderRef then some (e.price * 100 - commission_value) else none
    Realized_PnL := realizedOf cm e.execId
    Exchange := c.exchange }

/-- One iteration of the loop of process_executions (lines 87-180), given the
current value of the function-local security_info. -/
def processExecutionFrom (prev : Option String) (info : ExecInfo) (cm : CommMap) :
    Except Unit Trade :=
  match securityInfo prev info.contract with
  | .error u => .error u
  | .ok s => .ok (normalizeTrade info cm s)

/-- One iteration of the loop with the local still unassigned (the state of the
first iteration of a call of process_executions). -/
def processExecution (info : ExecInfo) (cm : CommMap) : Except Unit Trade :=
  processExecutionFrom none info cm

/-- The loop of process_executions from a given state of the local security_info:
an exception in any iteration escapes to the caller; a successful iteration
leaves the local equal to the Security_Info of the record it appended. -/
def processExecutionsFrom : Option String → List ExecInfo → CommMap → Except Unit (List Trade)
  | _, [], _ => .ok []
  | prev, i :: rest, cm =>
    match processExecutionFrom prev i cm with
    | .error u => .error u
    | .ok t =>
      match processExecutionsFrom (some t.Security_Info) rest cm with
      | .error u => .error u
      | .ok ts => .ok (t :: ts)

/-- process_executions: the loop over app.executions, entered with the local
security_info unassigned. -/
def processExecutions (execs : List ExecInfo) (cm : CommMap) : Except Unit (List Trade) :=
  processExecutionsFrom none execs cm

/-- The keys of the stock_trades index of mark_assigned_options (lines 186-193). -/
def stockKeys (l : List Trade) : List (String × String) :=
  (l.filter (fun t => t.Security_Info == "STOCK")).map (fun t => (t.Symbol, t.Date_Time))

/-- The per-record update of mark_assigned_options (lines 195-202). -/
def markRule (keys : List (String × String)) (t : Trade) : Trade :=
  if t.Security_Info ≠ "STOCK" ∧ t.Price = 0 ∧ t.Commission = 0 then
    if (t.Symbol, t.Date_Time) ∈ keys then { t with Action := "ASSIGNED" }
    else if t.Action ≠ "ASSIGNED" ∧ t.Action ≠ "BOT" ∧ t.Action ≠ "SLD" then
      { t with Action := "EXPIRED" }
    else t
  else t

/-- mark_assigned_options (lines 184-204): the stock index only supplies key
membership, and only the Action field of non-stock records is mutated, so the
in-place loop is a map over the list. -/
def mark_assigned_options (l : List Trade) : List Trade := l.map (markRule (stockKeys l))

def isSmartB (t : Trade) : Bool := t.Exchange == "SMART"

def isStocks (t : Trade) : Bool := t.Security_Info == "STOCKS"

/-- The grouping key of process_combos (lines 220-221): symbol and the re-formatted
parsed timestamp; none when strptime raises. -/
def comboKey (t : Trade) : Option (String × String) :=
  match parseDT t.Date_Time with
  | some dt => some (t.Symbol, fmtDT dt)
  | none => none

/-- trade['Security_Info'].split(). -/
def tok (t : Trade) : List String := pySplit t.Security_Info

/-- float(s.split()[1]) for a security-description string: none when the index
or the float conversion raises. -/
def strikeOfStr (s : String) : Option PyFloat :=
  match pySplit s with
  | _ :: tk :: _ => pyFloat tk
  | _ => none

/-- float(trade['Security_Info'].split()[1]): none when the index or the float
conversion raises ValueError/IndexError; an inf or nan token parses. -/
def strikeOf (t : Trade) : Option PyFloat := strikeOfStr t.Security_Info

def nonSmartOf (ts : List Trade) : List Trade := ts.filter (fun t => !(isSmartB t))

/-- The float conversions and indexings of lines 238-242 complete without an
IndexError or ValueError exactly when every non-SMART member has a parseable
second token (the strike; the tokens inf and nan do parse) and at least three
tokens (the unused types list reads split()[2]). -/
def parseOK (ts : List Trade) : Bool :=
  (nonSmartOf ts).all (fun t => 3 ≤ (tok t).length && (strikeOf t).isSome)

def strikeKey (t : Trade) : PyFloat := (strikeOf t).getD (.fin 0)

/-- Python's < on float values: nan compares false against everything. -/
def pfLt : PyFloat → PyFloat → Bool
  | .nan, _ => false
  | _, .nan => false
  | .ninf, .ninf => false
  | .ninf, _ => true
  | _, .ninf => false
  | .pinf, _ => false
  | .fin _, .pinf => true
  | .fin a, .fin b => decide (a < b)

/-- Stable insertion for the ascending sort by strike: the new element goes
after existing elements whose key is not greater. -/
def insAsc (t : Trade) : List Trade → List Trade
  | [] => [t]
  | x :: xs => if pfLt (strikeKey t) (strikeKey x) then t :: x :: xs else x :: insAsc t xs

/-- sorted(non_smart_trades, key=strike): a stable ascending sort.  For totally
ordered keys this is the sorted() result; when a nan key is present the relative
order follows this insertion sort, while Python's sort may order incomparable
keys differently - the claims about a completed merge exclude nan strikes. -/
def sortByStrike (l : List Trade) : List Trade := l.foldl (fun acc t => insAsc t acc) []

def insDesc (q : PyFloat) : List PyFloat → List PyFloat
  | [] => [q]
  | x :: xs => if pfLt x q then q :: x :: xs else x :: insDesc q xs

/-- sorted(strikes, reverse=True) on the strike values. -/
def sortDesc (l : List PyFloat) : List PyFloat := l.foldl (fun acc q => insDesc q acc) []

/-- Python int() truncation toward zero of a finite float. -/
def pyTrunc (q : ℚ) : Int := if 0 ≤ q then ⌊q⌋ else ⌈q⌉

/-- Result of str(int(s)) for one float value: int() of an infinity raises
OverflowError (not caught by the except clause at line 278), int() of nan
raises ValueError (caught). -/
inductive IntRes where
  | ok (s : String)
  | valueError
  | overflowError
deriving DecidableEq, Repr

def pyIntStr : PyFloat → IntRes
  | .fin q => .ok (toString (pyTrunc q))
  | .nan => .valueError
  | .pinf => .overflowError
  | .ninf => .overflowError

/-- Result of [str(int(s)) for s in l]: the first failing conversion decides. -/
inductive StrsRes where
  | strs (l : List String)
  | valueError
  | overflowError
deriving DecidableEq, Repr

def pyIntStrs : List PyFloat → StrsRes
  | [] => .strs []
  | f :: fs =>
    match pyIntStr f with
    | .ok s =>
      match pyIntStrs fs with
      | .strs l => .strs (s :: l)
      | .valueError => .valueError
      | .overflowError => .overflowError
    | .valueError => .valueError
    | .overflowError => .overflowError

def strsOf : StrsRes → List String
  | .strs l => l
  | _ => []

/-- The strikes list of line 240 (in ascending sorted-trade order). -/
def comboStrikes (ts : List Trade) : List PyFloat :=
  (sortByStrike (nonSmartOf ts)).filterMap strikeOf

/-- expiry_date of line 242: the first token of the first sorted trade. -/
def comboExpiry (ts : List Trade) : String :=
  ((sortByStrike (nonSmartOf ts)).head?.map (fun t => (tok t).headD "")).getD ""

/-- sorted(strikes, reverse=True)[:2]: the values handed to int() at line 245. -/
def topTwo (ts : List Trade) : List PyFloat := (sortDesc (comboStrikes ts)).take 2

/-- The int() conversions at line 245 complete (no infinite or nan strike among
the top two; vacuously true when there are no strikes and int() is not called). -/
def intOK (ts : List Trade) : Bool :=
  match pyIntStrs (topTwo ts) with
  | .strs _ => true
  | _ => false

/-- pnl_sum of lines 251-257: non-SMART legs with a truthy Realized_PnL
(a nonzero number; Python treats the float 0.0 as falsy) are summed. -/
def comboNet (ts : List Trade) : ℚ :=
  (nonSmartOf ts).foldl
    (fun s t => match t.Realized_PnL with
      | some q => if q = 0 then s else s + q
      | none => s) 0

/-- Lines 264-271: the new Realized_PnL of a SMART leg for a nonzero net: add
the net to a truthy current value (a nonzero number; Python treats the float 0.0
and the empty string as falsy), else set the net directly. -/
def foldPnl (cur : Option ℚ) (pnlSum : ℚ) : Option ℚ :=
  match cur with
  | some q => if q = 0 then some pnlSum else some (q + pnlSum)
  | none => some pnlSum

/-- The SMART-leg update of lines 259-271: overwrite Security_Info when the
descriptor is nonempty; when the net is nonzero, fold it into Realized_PnL. -/
def updateSmart (combined : String) (pnlSum : ℚ) (t : Trade) : Trade :=
  let t1 := if combined = "" then t else { t with Security_Info := combined }
  if pnlSum = 0 then t1
  else { t1 with Realized_PnL := foldPnl t1.Realized_PnL pnlSum }

/-- Lines 259-276 given the combined descriptor and the net: the SMART members
are emitted updated, or the whole group when no member is SMART. -/
def comboEmit (combined : String) (pnlSum : ℚ) (ts : List Trade) : List Trade :=
  if ts.any isSmartB then (ts.filter isSmartB).map (updateSmart combined pnlSum) else ts

/-- The try block of lines 238-276 for one group.  ok none models the caught
IndexError/ValueError (the group is then passed through unchanged): a missing
second or third token, a second token float() rejects, or int() applied to a
nan strike among the top two.  error models the uncaught OverflowError of
int() applied to an infinite strike among the top two, which escapes
process_combos. -/
def comboMerge (ts : List Trade) : Except Unit (Option (List Trade)) :=
  if parseOK ts then
    if comboStrikes ts ≠ [] ∧ comboExpiry ts ≠ "" then
      match pyIntStrs (topTwo ts) with
      | .overflowError => .error ()
      | .valueError => .ok none
      | .strs l =>
        .ok (some (comboEmit (comboExpiry ts ++ " " ++ String.intercalate "/" l)
          (comboNet ts) ts))
    else .ok (some (comboEmit "" (comboNet ts) ts))
  else .ok none

/-- combined_security_info of lines 239-249 as a total function of the group
(meaningful when the int() conversions complete). -/
def comboDescriptor (ts : List Trade) : String :=
  if comboStrikes ts ≠ [] ∧ comboExpiry ts ≠ "" then
    comboExpiry ts ++ " " ++ String.intercalate "/" (strsOf (pyIntStrs (topTwo ts)))
  else ""

/-- The per-group body of the loop at lines 227-283; an OverflowError escapes. -/
def processGroup (ts : List Trade) : Except Unit (List Trade) :=
  if ts.length ≤ 1 then .ok ts
  else if ts.any (fun t => decide (t.Price < 0)) then
    match comboMerge ts with
    | .error u => .error u
    | .ok none => .ok ts
    | .ok (some out) => .ok out
  else .ok ts

/-- Insert a trade into the bucket of its key, preserving defaultdict insertion
order of keys and of each bucket. -/
def insertGroup (k : String × String) (t : Trade) :
    List ((String × String) × List Trade) → List ((String × String) × List Trade)
  | [] => [(k, [t])]
  | (k', g) :: rest =>
    if k' = k then (k', g ++ [t]) :: rest else (k', g) :: insertGroup k t rest

/-- One iteration of the partitioning loop at lines 214-224. -/
def buildStep (acc : List ((String × String) × List Trade) × List Trade × List Trade)
    (t : Trade) : List ((String × String) × List Trade) × List Trade × List Trade :=
  if isStocks t then (acc.1, acc.2.1 ++ [t], acc.2.2)
  else match comboKey t with
    | some k => (insertGroup k t acc.1, acc.2.1, acc.2.2)
    | none => (acc.1, acc.2.1, acc.2.2 ++ [t])

def buildGroups (l : List Trade) :
    List ((String × String) × List Trade) × List Trade × List Trade :=
  l.foldl buildStep ([], [], [])

def groupsOf (l : List Trade) : List ((String × String) × List Trade) := (buildGroups l).1

def stocksOf (l : List Trade) : List Trade := (buildGroups l).2.1

def perrOf (l : List Trade) : List Trade := (buildGroups l).2.2

/-- The group-emission loop at lines 226-283; an exception in any group escapes. -/
def emitGroups : List ((String × String) × List Trade) → Except Unit (List Trade)
  | [] => .ok []
  | p :: rest =>
    match processGroup p.2 with
    | .error u => .error u
    | .ok out =>
      match emitGroups rest with
      | .error u => .error u
      | .ok outs => .ok (out ++ outs)

/-- process_combos (lines 206-288): emit the groups, then the STOCKS pass-through
records, then the timestamp-parse-failure records; an OverflowError raised while
emitting a group escapes before anything is returned. -/
def process_combos (l : List Trade) : Except Unit (List Trade) :=
  match emitGroups (groupsOf l) with
  | .error u => .error u
  | .ok es => .ok (es ++ stocksOf l ++ perrOf l)

/-- The core pipeline as invoked by save_to_excel (lines 296-297):
process_executions, then mark_assigned_options, then process_combos; an
exception in normalization or in the combo merge escapes. -/
def corePipeline (execs : List ExecInfo) (cm : CommMap) : Except Unit (List Trade) :=
  match processExecutions execs cm with
  | .error u => .error u
  | .ok td => process_combos (mark_assigned_options td)

def coreOk (r : Except Unit (List Trade)) : Bool :=
  match r with
  | .ok _ => true
  | .error _ => false

/-- Number of SMART-exchange members of a group. -/
def countSmart (ts : List Trade) : Nat := (ts.filter isSmartB).length

/-- The condition under which the combo-merge branch actually replaces a group by
its updated SMART members: more than one record, combo evidence (a negative
price), all non-SMART legs parse, the int() conversions of the top-two strikes
complete, and at least one SMART member. -/
def mergeOK (ts : List Trade) : Prop :=
  1 < ts.length ∧ ts.any (fun t => decide (t.Price < 0)) = true ∧
    parseOK ts = true ∧ intOK ts = true ∧ ts.any isSmartB = true

instance (ts : List Trade) : Decidable (mergeOK ts) := by
  unfold mergeOK; infer_instance

/-- How many records a group contributes to the ledger when no exception escapes. -/
def contribution (ts : List Trade) : Nat :=
  if mergeOK ts then countSmart ts else ts.length

/-- Count of records with the plural stock marker (pass-through category one). -/
def countStocks (l : List Trade) : Nat := (l.filter isStocks).length

/-- Count of non-marker records whose Date_Time fails to parse (category two). -/
def countParseFailures (l : List Trade) : Nat :=
  (l.filter (fun t => !(isStocks t) && (comboKey t).isNone)).length

/-- Does the batch contain a stock record with the given symbol and timestamp. -/
def hasStockKey (l : List Trade) (sym dt : String) : Bool :=
  l.any (fun t => t.Security_Info == "STOCK" && t.Symbol == sym && t.Date_Time == dt)

/-- The option expiry string parses without an exception: the three int() slices
succeed and the month indexes month_names without an IndexError. -/
def expiryOK (s : String) : Bool :=
  match expiryParts s with
  | some (_, m, _) => decide (m ≤ 12)
  | none => false

/-- The security-description string carries no infinite strike token: float() of
its second whitespace-delimited token, if any, is not an infinity.  This is the
precondition for the int() conversions of process_combos never to raise the
uncaught OverflowError. -/
def safeInfoStr (s : String) : Bool := !(pfIsInfO (strikeOfStr s))

/-- The batch condition under which process_executions completes and the records
it produces carry no infinite strike token, checked record by record with the
assignment state of the loop-local security_info: a stock contract; an option or
future-option contract with a parseable expiry and a non-infinite strike; or any
other instrument class provided the local was already assigned (the stale value
is then reused silently). -/
def wfBatch : Bool → List ExecInfo → Bool
  | _, [] => true
  | assigned, i :: rest =>
    if i.contract.secType = "STK" then wfBatch true rest
    else if i.contract.secType = "OPT" ∨ i.contract.secType = "FOP" then
      (expiryOK i.contract.lastTradeDateOrContractMonth &&
        !(pfIsInf i.contract.strike)) && wfBatch true rest
    else assigned && wfBatch assigned rest

/-- The ten decimal digit characters. -/
def digitChars : List Char := ['0','1','2','3','4','5','6','7','8','9']

/-- Whitespace-freeness of a string, the precondition for locating its tokens. -/
def noWsStr (s : String) : Prop := ∀ x ∈ s.data, x.isWhitespace = false

instance (s : String) : Decidable (noWsStr s) := by
  unfold noWsStr; infer_instance

/-- Decidable equality of Except results, so that concrete runs of the fallible
functions can be checked by evaluation. -/
instance {ε α : Type} [DecidableEq ε] [DecidableEq α] : DecidableEq (Except ε α) :=
  fun a b =>
  match a, b with
  | .error e, .error f =>
    if h : e = f then .isTrue (h ▸ rfl) else .isFalse (fun hc => h (Except.error.inj hc))
  | .error _, .ok _ => .isFalse (fun hc => Except.noConfusion hc)
  | .ok _, .error _ => .isFalse (fun hc => Except.noConfusion hc)
  | .ok x, .ok y =>
    if h : x = y then .isTrue (h ▸ rfl) else .isFalse (fun hc => h (Except.ok.inj hc))

/-! ## Concrete records for the counterexamples and witnesses -/

/-- Concrete record: a non-SMART combo leg (strike 100, realized 50, negative price). -/
def cex3a : Trade :=
  ⟨"A", "SLD", "01.03.2024 15:30:00", 1, "XYZ", "MAR'15'24 100 CALL", "USD",
    -1, 0, none, some 50, "CBOE"⟩

/-- Concrete record: a SMART member of the same group. -/
def cex3b : Trade :=
  ⟨"A", "BOT", "01.03.2024 15:30:00", 1, "XYZ", "MAR'15'24 105 CALL", "USD",
    2, 0, none, none, "SMART"⟩

/-- Concrete record: a second SMART member of the same group. -/
def cex3c : Trade :=
  ⟨"A", "BOT", "01.03.2024 15:30:00", 1, "XYZ", "MAR'15'24 110 CALL", "USD",
    2, 0, none, none, "SMART"⟩

/-- Concrete record: a non-SMART leg whose Security_Info has no second token. -/
def w8a : Trade :=
  ⟨"A", "SLD", "01.03.2024 15:30:00", 1, "XYZ", "BAD", "USD",
    -1, 0, none, some 50, "CBOE"⟩

/-- Concrete record: a SMART member grouped with w8a. -/
def w8b : Trade :=
  ⟨"A", "BOT", "01.03.2024 15:30:00", 1, "XYZ", "MAR'15'24 105 CALL", "USD",
    2, 0, none, none, "SMART"⟩

/-- Concrete record: a negative-price non-SMART leg whose strike token is inf,
which float() accepts and int() then rejects with OverflowError. -/
def cex8a : Trade :=
  ⟨"A", "SLD", "01.03.2024 15:30:00", 1, "XYZ", "MAR'15'24 inf CALL", "USD",
    -1, 0, none, some 50, "CBOE"⟩

/-- Concrete record: a SMART member grouped with cex8a. -/
def cex8b : Trade :=
  ⟨"A", "BOT", "01.03.2024 15:30:00", 1, "XYZ", "MAR'15'24 105 CALL", "USD",
    2, 0, none, none, "SMART"⟩

/-- Concrete record: a negative-price non-SMART leg with an inf strike token,
showing that process_combos can fail to return at all. -/
def cex3d : Trade :=
  ⟨"A", "SLD", "01.03.2024 15:30:00", 1, "XYZ", "MAR'15'24 inf CALL", "USD",
    -1, 0, none, some 50, "CBOE"⟩

/-- Concrete record: a SMART member grouped with cex3d. -/
def cex3e : Trade :=
  ⟨"A", "BOT", "01.03.2024 15:30:00", 1, "XYZ", "MAR'15'24 105 CALL", "USD",
    2, 0, none, none, "SMART"⟩

/-- Concrete record: a non-SMART leg with no second token, for the count witness. -/
def w3a : Trade :=
  ⟨"A", "SLD", "01.03.2024 15:30:00", 1, "XYZ", "BAD", "USD",
    -1, 0, none, some 50, "CBOE"⟩

/-- Concrete record: a SMART member grouped with w3a. -/
def w3b : Trade :=
  ⟨"A", "BOT", "01.03.2024 15:30:00", 1, "XYZ", "MAR'15'24 105 CALL", "USD",
    2, 0, none, none, "SMART"⟩

/-- Concrete record: negative-price non-SMART leg whose Security_Info has a
parseable strike but only two tokens. -/
def cex10a : Trade :=
  ⟨"A", "SLD", "01.03.2024 15:30:00", 1, "XYZ", "ABC 100", "USD",
    -1, 0, none, some 50, "CBOE"⟩

/-- Concrete record: a SMART stock record grouped with cex10a. -/
def cex10b : Trade :=
  ⟨"A", "BOT", "01.03.2024 15:30:00", 1, "XYZ", "STOCK", "USD",
    2, 0, none, none, "SMART"⟩

/-- Concrete record: negative-price non-SMART option leg with a full three-token
Security_Info. -/
def w10a : Trade :=
  ⟨"A", "SLD", "01.03.2024 15:30:00", 1, "XYZ", "JAN'01'24 100 CALL", "USD",
    -1, 0, none, none, "CBOE"⟩

/-- Concrete record: a SMART stock record grouped with w10a. -/
def w10b : Trade :=
  ⟨"A", "BOT", "01.03.2024 15:30:00", 1, "XYZ", "STOCK", "USD",
    2, 0, none, none, "SMART"⟩

/-- Concrete raw execution: a futures contract, whose instrument class the
normalizer does not handle. -/
def cex2fut : ExecInfo :=
  ⟨⟨"ACME", "FUT", "", .fin 0, "", "USD", "GLOBEX"⟩,
   ⟨"U1", "BOT", "20240301  15:30:00", 1, 1, "id1", ""⟩⟩

/-- Concrete raw execution: an option contract with an unparseable expiry. -/
def cex2opt : ExecInfo :=
  ⟨⟨"ACME", "OPT", "banana", .fin 100, "C", "USD", "SMART"⟩,
   ⟨"U1", "BOT", "20240301  15:30:00", 1, 1, "id2", ""⟩⟩

/-- Concrete raw execution: a negative-price option fill whose contract strike is
the infinite float. -/
def cex2inf1 : ExecInfo :=
  ⟨⟨"ACME", "OPT", "20240315", .pinf, "C", "USD", "CBOE"⟩,
   ⟨"U1", "SLD", "20240301  15:30:00", 1, -1, "z1", ""⟩⟩

/-- Concrete raw execution: a SMART option fill grouped with cex2inf1. -/
def cex2inf2 : ExecInfo :=
  ⟨⟨"ACME", "OPT", "20240315", .fin 100, "C", "USD", "SMART"⟩,
   ⟨"U1", "BOT", "20240301  15:30:00", 1, 1, "z2", ""⟩⟩

/-- Concrete raw execution: a well-formed stock fill. -/
def w2stk : ExecInfo :=
  ⟨⟨"ACME", "STK", "", .fin 0, "", "USD", "SMART"⟩,
   ⟨"U1", "BOT", "20240301  15:30:00", 10, 5, "x1", ""⟩⟩

/-- Concrete raw execution: a well-formed option fill. -/
def w2opt : ExecInfo :=
  ⟨⟨"ACME", "OPT", "20240315", .fin 100, "C", "USD", "CBOE"⟩,
   ⟨"U1", "SLD", "20240301  15:30:00", 1, 0, "x2", ""⟩⟩

/-- Concrete raw execution for the sentinel witness. -/
def w4info : ExecInfo :=
  ⟨⟨"ACME", "STK", "", .fin 0, "", "USD", "SMART"⟩,
   ⟨"U1", "BOT", "20240301  15:30:00", 10, 5, "x1", ""⟩⟩

/-- Concrete commission entry carrying the sentinel realized PnL. -/
def w4rec : CommissionRecord := ⟨2, "USD", some (.rfloat MAX_FLOAT_SENTINEL)⟩

def w4cm : CommMap := [("x1", w4rec)]

/-- The record the normalizer produces for w4info under w4cm. -/
def w4t : Trade :=
  ⟨"U1", "BOT", "01.03.2024 15:30:00", 10, "ACME", "STOCK", "USD",
    5, 2, none, none, "SMART"⟩

/-- Concrete raw execution: stock fill sharing symbol and time with e5b. -/
def e5a : ExecInfo :=
  ⟨⟨"ACME", "STK", "", .fin 0, "", "USD", "SMART"⟩,
   ⟨"U1", "BOT", "20240301  15:30:00", 10, 5, "y1", ""⟩⟩

/-- Concrete raw execution: zero-price option fill with no commission entry. -/
def e5b : ExecInfo :=
  ⟨⟨"ACME", "OPT", "20240315", .fin 100, "C", "USD", "CBOE"⟩,
   ⟨"U1", "SLD", "20240301  15:30:00", 1, 0, "y2", ""⟩⟩

/-- Normalized form of e5a. -/
def t5a : Trade :=
  ⟨"U1", "BOT", "01.03.2024 15:30:00", 10, "ACME", "STOCK", "USD",
    5, 0, none, none, "SMART"⟩

/-- Normalized form of e5b (zero price, zero commission, hence EXPIRED). -/
def t5b : Trade :=
  ⟨"U1", "EXPIRED", "01.03.2024 15:30:00", 1, "ACME", "MAR'15'24 100.0 CALL", "USD",
    0, 0, none, none, "CBOE"⟩

/-- t5b after the assignment classifier. -/
def t5c : Trade := { t5b with Action := "ASSIGNED" }

/-- Concrete record: first non-SMART combo leg of the netting example. -/
def cex1a : Trade :=
  ⟨"A", "SLD", "01.03.2024 15:30:00", 1, "XYZ", "MAR'15'24 100 CALL", "USD",
    -1, 0, none, some 50, "CBOE"⟩

/-- Concrete record: second non-SMART combo leg of the netting example. -/
def cex1b : Trade :=
  ⟨"A", "SLD", "01.03.2024 15:30:00", 1, "XYZ", "MAR'15'24 105 CALL", "USD",
    2, 0, none, some (-20), "AMEX"⟩

/-- Concrete record: a SMART member whose Security_Info is the plural marker. -/
def cex1c : Trade :=
  ⟨"A", "BOT", "01.03.2024 15:30:00", 1, "XYZ", "STOCKS", "USD",
    3, 0, none, some 7, "SMART"⟩

/-- Concrete record: first non-SMART leg for the netting witness. -/
def w1a : Trade :=
  ⟨"A", "SLD", "01.03.2024 15:30:00", 1, "XYZ", "MAR'15'24 100 CALL", "USD",
    -1, 0, none, some 50, "CBOE"⟩

/-- Concrete record: second non-SMART leg for the netting witness. -/
def w1b : Trade :=
  ⟨"A", "SLD", "01.03.2024 15:30:00", 1, "XYZ", "MAR'15'24 105 CALL", "USD",
    2, 0, none, some (-20), "AMEX"⟩

/-- Concrete record: the SMART primary leg for the netting witness. -/
def w1c : Trade :=
  ⟨"A", "BOT", "01.03.2024 15:30:00", 1, "XYZ", "MAR'15'24 100 CALL", "USD",
    3, 0, none, some 7, "SMART"⟩

/-! ## Digit-character facts about the decimal representations -/

theorem digitChar_mem (k : Nat) (h : k < 10) : Nat.digitChar k ∈ digitChars := by
  interval_cases k <;> decide

theorem toDigitsCore_mem (fuel : Nat) : ∀ (n : Nat) (ds : List Char),
    (∀ c ∈ ds, c ∈ digitChars) → ∀ c ∈ Nat.toDigitsCore 10 fuel n ds, c ∈ digitChars := by
  induction fuel with
  | zero => intro n ds hds; exact hds
  | succ f ih =>
    intro n ds hds c hc
    have hstep : Nat.toDigitsCore 10 (f+1) n ds =
        (if n / 10 = 0 then Nat.digitChar (n % 10) :: ds
         else Nat.toDigitsCore 10 f (n / 10) (Nat.digitChar (n % 10) :: ds)) := rfl
    rw [hstep] at hc
    have hd : Nat.digitChar (n % 10) ∈ digitChars :=
      digitChar_mem _ (Nat.mod_lt _ (by decide))
    by_cases hz : n / 10 = 0
    · rw [if_pos hz] at hc
      rcases List.mem_cons.mp hc with rfl | hmem
      · exact hd
      · exact hds c hmem
    · rw [if_neg hz] at hc
      refine ih (n / 10) _ ?_ c hc
      intro x hx
      rcases List.mem_cons.mp hx with rfl | hmem
      · exact hd
      · exact hds x hmem

theorem natDigits_mem (n : Nat) : ∀ c ∈ Nat.toDigits 10 n, c ∈ digitChars :=
  toDigitsCore_mem (n+1) n [] (fun c hc => absurd hc (List.not_mem_nil c))

theorem toDigitsCore_suffix (fuel : Nat) : ∀ (n : Nat) (ds : List Char),
    ∃ pre, Nat.toDigitsCore 10 fuel n ds = pre ++ ds := by
  induction fuel with
  | zero => intro n ds; exact ⟨[], rfl⟩
  | succ f ih =>
    intro n ds
    have hstep : Nat.toDigitsCore 10 (f+1) n ds =
        (if n / 10 = 0 then Nat.digitChar (n % 10) :: ds
         else Nat.toDigitsCore 10 f (n / 10) (Nat.digitChar (n % 10) :: ds)) := rfl
    rw [hstep]
    by_cases hz : n / 10 = 0
    · rw [if_pos hz]; exact ⟨[Nat.digitChar (n % 10)], rfl⟩
    · rw [if_neg hz]
      obtain ⟨pre, hp⟩ := ih (n / 10) (Nat.digitChar (n % 10) :: ds)
      exact ⟨pre ++ [Nat.digitChar (n % 10)], by simp [hp]⟩

theorem natDigits_ne_nil (n : Nat) : Nat.toDigits 10 n ≠ [] := by
  unfold Nat.toDigits
  have hstep : Nat.toDigitsCore 10 (n+1) n [] =
      (if n / 10 = 0 then Nat.digitChar (n % 10) :: [] else
        Nat.toDigitsCore 10 n (n / 10) (Nat.digitChar (n % 10) :: [])) := rfl
  rw [hstep]
  by_cases hz : n / 10 = 0
  · rw [if_pos hz]; exact List.cons_ne_nil _ _
  · rw [if_neg hz]
    obtain ⟨pre, hp⟩ := toDigitsCore_suffix n (n / 10) [Nat.digitChar (n % 10)]
    rw [hp]
    simp

theorem natData_digits (n : Nat) : ∀ c ∈ (toString n).data, c ∈ digitChars :=
  natDigits_mem n

theorem intData_chars (i : Int) : ∀ c ∈ (toString i).data, c = '-' ∨ c ∈ digitChars := by
  cases i with
  | ofNat m =>
    intro c hc
    exact Or.inr (natDigits_mem m c hc)
  | negSucc m =>
    intro c hc
    have hd : (toString (Int.negSucc m)).data = '-' :: Nat.toDigits 10 (m+1) := rfl
    rw [hd] at hc
    rcases List.mem_cons.mp hc with rfl | hmem
    · exact Or.inl rfl
    · exact Or.inr (natDigits_mem _ c hmem)

theorem digit_not_ws (c : Char) (h : c ∈ digitChars) : c.isWhitespace = false := by
  fin_cases h <;> decide

theorem mem_digitChars_ne_plus (c : Char) (h : c ∈ digitChars) : c ≠ '+' := by
  fin_cases h <;> decide

theorem mem_digitChars_ne_minus (c : Char) (h : c ∈ digitChars) : c ≠ '-' := by
  fin_cases h <;> decide

/-! ## The float parser on the rendered strike strings -/

theorem pyFloatSpecial_none_of_mem (cs : List Char) (c : Char) (hc : c ∈ cs)
    (hl : lowerChar c = c)
    (h1 : c ∉ "inf".toList) (h2 : c ∉ "infinity".toList) (h3 : c ∉ "nan".toList) :
    pyFloatSpecial cs = none := by
  unfold pyFloatSpecial
  have hm : c ∈ cs.map lowerChar := List.mem_map.mpr ⟨c, hc, hl⟩
  rw [if_neg, if_neg]
  · intro he; rw [he] at hm; exact h3 hm
  · rintro (he | he)
    · rw [he] at hm; exact h1 hm
    · rw [he] at hm; exact h2 hm

theorem pfIsInfO_map_fin (o : Option ℚ) : pfIsInfO (o.map PyFloat.fin) = false := by
  cases o <;> rfl

theorem pfIsInfO_map_fin_neg (o : Option ℚ) :
    pfIsInfO ((o.map PyFloat.fin).map pfNeg) = false := by
  cases o <;> rfl

theorem pyFloatUnsigned_not_inf (cs : List Char) (h : pyFloatSpecial cs = none) :
    pfIsInfO (pyFloatUnsigned cs) = false := by
  unfold pyFloatUnsigned
  rw [h]
  exact pfIsInfO_map_fin _

theorem pyFloatUnsigned_neg_not_inf (cs : List Char) (h : pyFloatSpecial cs = none) :
    pfIsInfO ((pyFloatUnsigned cs).map pfNeg) = false := by
  unfold pyFloatUnsigned
  rw [h]
  exact pfIsInfO_map_fin_neg _

theorem pyFloatChars_cons_other (c : Char) (rest : List Char) (h1 : c ≠ '+') (h2 : c ≠ '-') :
    pyFloatChars (c :: rest) = pyFloatUnsigned (c :: rest) := by
  show (if c = '+' then pyFloatUnsigned rest
    else if c = '-' then (pyFloatUnsigned rest).map pfNeg
    else pyFloatUnsigned (c :: rest)) = _
  rw [if_neg h1, if_neg h2]

theorem pyFloatChars_cons_minus (rest : List Char) :
    pyFloatChars ('-' :: rest) = (pyFloatUnsigned rest).map pfNeg := by
  show (if ('-' : Char) = '+' then pyFloatUnsigned rest
    else if ('-' : Char) = '-' then (pyFloatUnsigned rest).map pfNeg
    else pyFloatUnsigned ('-' :: rest)) = _
  rw [if_neg (by decide), if_pos rfl]

/-- float() of the rendered strike of a non-infinite float value is never an
infinity: the finite renderings contain a dot or a slash, which the special
names inf, infinity, nan do not, and the magnitude parser only yields finite
values; the nan rendering parses back to nan. -/
theorem strikeRepr_not_inf (f : PyFloat) (hf : pfIsInf f = false) :
    pfIsInfO (pyFloat (strikeRepr f)) = false := by
  cases f with
  | nan => decide
  | pinf => exact absurd hf (by decide)
  | ninf => exact absurd hf (by decide)
  | fin q =>
    by_cases hden : q.den = 1
    · have hdata : (strikeRepr (.fin q)).data = (toString q.num).data ++ ['.', '0'] := by
        show ((if q.den = 1 then toString q.num ++ ".0" else toString q)).data = _
        rw [if_pos hden]
        simp [String.data_append]
      cases hnum : q.num with
      | ofNat m =>
        have hd : (strikeRepr (.fin q)).data = Nat.toDigits 10 m ++ ['.', '0'] := by
          rw [hdata, hnum]; rfl
        obtain ⟨c, cs', hcc⟩ := List.exists_cons_of_ne_nil (natDigits_ne_nil m)
        have hcd : c ∈ digitChars :=
          natDigits_mem m c (by rw [hcc]; exact List.mem_cons_self _ _)
        show pfIsInfO (pyFloatChars (strikeRepr (.fin q)).data) = false
        rw [hd, hcc]
        show pfIsInfO (pyFloatChars (c :: (cs' ++ ['.', '0']))) = false
        rw [pyFloatChars_cons_other c _ (mem_digitChars_ne_plus c hcd)
          (mem_digitChars_ne_minus c hcd)]
        refine pyFloatUnsigned_not_inf _ (pyFloatSpecial_none_of_mem _ '.' ?_ (by decide)
          (by decide) (by decide) (by decide))
        refine List.mem_cons_of_mem _ (List.mem_append_right _ ?_)
        decide
      | negSucc m =>
        have hd : (strikeRepr (.fin q)).data =
            '-' :: (Nat.toDigits 10 (m+1) ++ ['.', '0']) := by
          rw [hdata, hnum]; rfl
        show pfIsInfO (pyFloatChars (strikeRepr (.fin q)).data) = false
        rw [hd, pyFloatChars_cons_minus]
        refine pyFloatUnsigned_neg_not_inf _ (pyFloatSpecial_none_of_mem _ '.' ?_ (by decide)
          (by decide) (by decide) (by decide))
        exact List.mem_append_right _ (by decide)
    · have hdata : (strikeRepr (.fin q)).data =
          (toString q.num).data ++ '/' :: (toString q.den).data := by
        show ((if q.den = 1 then toString q.num ++ ".0" else toString q)).data = _
        rw [if_neg hden]
        show (instToStringRat.toString q).data = _
        simp only [instToStringRat]
        rw [if_neg hden]
        have hs : ∀ s : String, toString s = s := fun _ => rfl
        simp [hs, String.data_append]
      cases hnum : q.num with
      | ofNat m =>
        have hd : (strikeRepr (.fin q)).data =
            Nat.toDigits 10 m ++ '/' :: (toString q.den).data := by
          rw [hdata, hnum]; rfl
        obtain ⟨c, cs', hcc⟩ := List.exists_cons_of_ne_nil (natDigits_ne_nil m)
        have hcd : c ∈ digitChars :=
          natDigits_mem m c (by rw [hcc]; exact List.mem_cons_self _ _)
        show pfIsInfO (pyFloatChars (strikeRepr (.fin q)).data) = false
        rw [hd, hcc]
        show pfIsInfO (pyFloatChars (c :: (cs' ++ '/' :: (toString q.den).data))) = false
        rw [pyFloatChars_cons_other c _ (mem_digitChars_ne_plus c hcd)
          (mem_digitChars_ne_minus c hcd)]
        refine pyFloatUnsigned_not_inf _ (pyFloatSpecial_none_of_mem _ '/' ?_ (by decide)
          (by decide) (by decide) (by decide))
        exact List.mem_cons_of_mem _ (List.mem_append_right _ (List.mem_cons_self _ _))
      | negSucc m =>
        have hd : (strikeRepr (.fin q)).data =
            '-' :: (Nat.toDigits 10 (m+1) ++ '/' :: (toString q.den).data) := by
          rw [hdata, hnum]; rfl
        show pfIsInfO (pyFloatChars (strikeRepr (.fin q)).data) = false
        rw [hd, pyFloatChars_cons_minus]
        refine pyFloatUnsigned_neg_not_inf _ (pyFloatSpecial_none_of_mem _ '/' ?_ (by decide)
          (by decide) (by decide) (by decide))
        exact List.mem_append_right _ (List.mem_cons_self _ _)

/-! ## Locating the tokens of the generated security descriptions -/

theorem wordsAux_chain (xs : List Char) (hxs : ∀ c ∈ xs, c.isWhitespace = false) :
    ∀ (cs cur : List Char), wordsAux (xs ++ cs) cur = wordsAux cs (xs.reverse ++ cur) := by
  induction xs with
  | nil => intro cs cur; simp
  | cons x xs' ih =>
    intro cs cur
    have hx : x.isWhitespace = false := hxs x (List.mem_cons_self _ _)
    show (if x.isWhitespace then _ else _) = _
    rw [hx]
    simp only [Bool.false_eq_true, if_false]
    show wordsAux (xs' ++ cs) (x :: cur) = _
    rw [ih (fun c hc => hxs c (List.mem_cons_of_mem _ hc)) cs (x :: cur)]
    simp

theorem wordsAux_space (cs cur : List Char) (h : cur ≠ []) :
    wordsAux (' ' :: cs) cur = String.mk cur.reverse :: wordsAux cs [] := by
  show (if (' ').isWhitespace then _ else _) = _
  rw [show (' ').isWhitespace = true from rfl]
  simp only [if_true]
  rw [if_neg h]

theorem wordsAux_last (xs : List Char) (hne : xs ≠ [])
    (hxs : ∀ c ∈ xs, c.isWhitespace = false) :
    wordsAux xs [] = [String.mk xs] := by
  have h := wordsAux_chain xs hxs [] []
  rw [List.append_nil] at h
  rw [h]
  show (if xs.reverse ++ [] = [] then _ else _) = _
  rw [if_neg (by simp [hne])]
  simp

theorem string_mk_data (s : String) : String.mk s.data = s := by
  cases s; rfl

/-- pySplit of a string assembled from three nonempty whitespace-free words with
single-space separators is exactly the three words. -/
theorem pySplit_three (s a b c : String)
    (hs : s.data = a.data ++ (' ' :: (b.data ++ (' ' :: c.data))))
    (hane : a.data ≠ []) (hbne : b.data ≠ []) (hcne : c.data ≠ [])
    (ha : noWsStr a) (hb : noWsStr b) (hc : noWsStr c) :
    pySplit s = [a, b, c] := by
  unfold pySplit
  show wordsAux s.data [] = _
  rw [hs]
  rw [wordsAux_chain a.data ha _ []]
  rw [List.append_nil]
  rw [wordsAux_space _ _ (by simp [hane])]
  rw [List.reverse_reverse, string_mk_data]
  rw [wordsAux_chain b.data hb _ []]
  rw [List.append_nil]
  rw [wordsAux_space _ _ (by simp [hbne])]
  rw [List.reverse_reverse, string_mk_data]
  rw [wordsAux_last c.data hcne hc, string_mk_data]

theorem noWsStr_append (s t : String) (hs : noWsStr s) (ht : noWsStr t) :
    noWsStr (s ++ t) := by
  intro x hx
  rw [String.data_append] at hx
  rcases List.mem_append.mp hx with h | h
  · exact hs x h
  · exact ht x h

theorem noWsStr_nat (n : Nat) : noWsStr (toString n) :=
  fun x hx => digit_not_ws x (natData_digits n x hx)

theorem noWsStr_int (i : Int) : noWsStr (toString i) := by
  intro x hx
  rcases intData_chars i x hx with rfl | h
  · decide
  · exact digit_not_ws x h

theorem noWsStr_pad2 (n : Nat) : noWsStr (pad2 n) := by
  unfold pad2
  by_cases h : n < 10
  · rw [if_pos h]
    exact noWsStr_append _ _ (by decide) (noWsStr_nat n)
  · rw [if_neg h]
    exact noWsStr_nat n

theorem noWsStr_lastTwo (s : String) (hs : noWsStr s) : noWsStr (lastTwo s) := by
  intro x hx
  refine hs x ?_
  unfold lastTwo at hx
  have hx2 : x ∈ (s.toList.reverse.take 2).reverse := hx
  rw [List.mem_reverse] at hx2
  have hx3 : x ∈ s.toList.reverse := List.take_subset _ _ hx2
  rw [List.mem_reverse] at hx3
  exact hx3

theorem noWsStr_monthName (m : Nat) (hm : m ≤ 12) : noWsStr (monthName m) := by
  interval_cases m <;> decide

theorem noWsStr_strikeRepr (f : PyFloat) : noWsStr (strikeRepr f) := by
  cases f with
  | pinf => decide
  | ninf => decide
  | nan => decide
  | fin q =>
    by_cases hden : q.den = 1
    · show noWsStr (if q.den = 1 then toString q.num ++ ".0" else toString q)
      rw [if_pos hden]
      exact noWsStr_append _ _ (noWsStr_int q.num) (by decide)
    · intro x hx
      have hdata : (strikeRepr (.fin q)).data =
          (toString q.num).data ++ '/' :: (toString q.den).data := by
        show ((if q.den = 1 then toString q.num ++ ".0" else toString q)).data = _
        rw [if_neg hden]
        show (instToStringRat.toString q).data = _
        simp only [instToStringRat]
        rw [if_neg hden]
        have hs : ∀ s : String, toString s = s := fun _ => rfl
        simp [hs, String.data_append]
      rw [hdata] at hx
      rcases List.mem_append.mp hx with h | h
      · exact noWsStr_int q.num x h
      · rcases List.mem_cons.mp h with rfl | h2
        · decide
        · exact noWsStr_nat q.den x h2

theorem strikeRepr_ne_nil (f : PyFloat) : (strikeRepr f).data ≠ [] := by
  cases f with
  | pinf => decide
  | ninf => decide
  | nan => decide
  | fin q =>
    by_cases hden : q.den = 1
    · have hdata : (strikeRepr (.fin q)).data = (toString q.num).data ++ ['.', '0'] := by
        show ((if q.den = 1 then toString q.num ++ ".0" else toString q)).data = _
        rw [if_pos hden]
        simp [String.data_append]
      rw [hdata]
      simp
    · have hdata : (strikeRepr (.fin q)).data =
          (toString q.num).data ++ '/' :: (toString q.den).data := by
        show ((if q.den = 1 then toString q.num ++ ".0" else toString q)).data = _
        rw [if_neg hden]
        show (instToStringRat.toString q).data = _
        simp only [instToStringRat]
        rw [if_neg hden]
        have hs : ∀ s : String, toString s = s := fun _ => rfl
        simp [hs, String.data_append]
      rw [hdata]
      simp

/-- The generated option security description is safe: its second token is the
rendered strike, and float() of that token is not an infinity when the strike
is not. -/
theorem safeInfoStr_generated (m d y : Nat) (hm : m ≤ 12) (f : PyFloat)
    (hf : pfIsInf f = false) (r : String) :
    safeInfoStr (monthName m ++ "'" ++ pad2 d ++ "'" ++ lastTwo (toString y) ++ " " ++
      strikeRepr f ++ " " ++ (if r = "C" then "CALL" else "PUT")) = true := by
  have hA : noWsStr (monthName m ++ "'" ++ pad2 d ++ "'" ++ lastTwo (toString y)) := by
    refine noWsStr_append _ _ (noWsStr_append _ _ (noWsStr_append _ _
      (noWsStr_append _ _ (noWsStr_monthName m hm) (by decide)) (noWsStr_pad2 d))
      (by decide)) (noWsStr_lastTwo _ (noWsStr_nat y))
  have hAne : (monthName m ++ "'" ++ pad2 d ++ "'" ++ lastTwo (toString y)).data ≠ [] := by
    intro hcontra
    simp only [String.data_append, List.append_eq_nil] at hcontra
    exact absurd hcontra.1.1.1.2 (by decide)
  have hC : noWsStr (if r = "C" then "CALL" else "PUT") := by
    by_cases hr : r = "C"
    · rw [if_pos hr]; decide
    · rw [if_neg hr]; decide
  have hCne : ((if r = "C" then "CALL" else "PUT") : String).data ≠ [] := by
    by_cases hr : r = "C"
    · rw [if_pos hr]; decide
    · rw [if_neg hr]; decide
  have hsplit : pySplit (monthName m ++ "'" ++ pad2 d ++ "'" ++ lastTwo (toString y) ++
      " " ++ strikeRepr f ++ " " ++ (if r = "C" then "CALL" else "PUT")) =
      [monthName m ++ "'" ++ pad2 d ++ "'" ++ lastTwo (toString y), strikeRepr f,
        if r = "C" then "CALL" else "PUT"] := by
    refine pySplit_three _ _ _ _ ?_ hAne (strikeRepr_ne_nil f) hCne hA
      (noWsStr_strikeRepr f) hC
    have hsp : (" " : String).data = [' '] := rfl
    simp [String.data_append, hsp]
  unfold safeInfoStr strikeOfStr
  rw [hsplit]
  show (!(pfIsInfO (pyFloat (strikeRepr f)))) = true
  rw [strikeRepr_not_inf f hf]
  rfl

/-! ## Normalization lemmas -/

theorem processExecutionFrom_ok_elim {prev : Option String} {info : ExecInfo}
    {cm : CommMap} {t : Trade}
    (h : processExecutionFrom prev info cm = .ok t) :
    ∃ s, securityInfo prev info.contract = .ok s ∧ t = normalizeTrade info cm s := by
  unfold processExecutionFrom at h
  cases hs : securityInfo prev info.contract with
  | error u => rw [hs] at h; exact Except.noConfusion h
  | ok s =>
    rw [hs] at h
    injection h with h
    exact ⟨s, rfl, h.symm⟩

theorem processExecutionFrom_zero_expired (prev : Option String) (info : ExecInfo)
    (cm : CommMap) (t : Trade)
    (ht : processExecutionFrom prev info cm = .ok t) (hp : t.Price = 0)
    (hc : t.Commission = 0) :
    t.Action = "EXPIRED" := by
  obtain ⟨s, -, rfl⟩ := processExecutionFrom_ok_elim ht
  show (if info.execution.price = 0 ∧ commissionOf cm info.execution.execId = 0
    then "EXPIRED" else initialAction info.execution) = "EXPIRED"
  exact if_pos ⟨hp, hc⟩

theorem processExecutionsFrom_mem (execs : List ExecInfo) (cm : CommMap) :
    ∀ (prev : Option String) (td : List Trade),
    processExecutionsFrom prev execs cm = .ok td →
    ∀ t ∈ td, ∃ i ∈ execs, ∃ p, processExecutionFrom p i cm = .ok t := by
  induction execs with
  | nil =>
    intro prev td h
    unfold processExecutionsFrom at h
    injection h with h
    subst h
    intro t htm
    cases htm
  | cons i rest ih =>
    intro prev td h
    unfold processExecutionsFrom at h
    cases hi : processExecutionFrom prev i cm with
    | error u => rw [hi] at h; exact Except.noConfusion h
    | ok t0 =>
      rw [hi] at h
      dsimp only at h
      cases hr : processExecutionsFrom (some t0.Security_Info) rest cm with
      | error u => rw [hr] at h; exact Except.noConfusion h
      | ok ts =>
        rw [hr] at h
        injection h with h
        subst h
        intro t htm
        rcases List.mem_cons.mp htm with rfl | hmem
        · exact ⟨i, List.mem_cons_self _ _, prev, hi⟩
        · obtain ⟨j, hj, p, hjt⟩ := ih _ ts hr t hmem
          exact ⟨j, List.mem_cons_of_mem _ hj, p, hjt⟩

/-! ## Assignment-classifier lemmas -/

theorem markRule_Security_Info (k : List (String × String)) (t : Trade) :
    (markRule k t).Security_Info = t.Security_Info := by
  unfold markRule; split_ifs <;> rfl

theorem markRule_Symbol (k : List (String × String)) (t : Trade) :
    (markRule k t).Symbol = t.Symbol := by
  unfold markRule; split_ifs <;> rfl

theorem markRule_Date_Time (k : List (String × String)) (t : Trade) :
    (markRule k t).Date_Time = t.Date_Time := by
  unfold markRule; split_ifs <;> rfl

theorem markRule_eq_of_not (k : List (String × String)) (t : Trade)
    (h : ¬(t.Security_Info ≠ "STOCK" ∧ t.Price = 0 ∧ t.Commission = 0)) :
    markRule k t = t := by
  unfold markRule; rw [if_neg h]

theorem markRule_eq_assigned (k : List (String × String)) (t : Trade)
    (h1 : t.Security_Info ≠ "STOCK" ∧ t.Price = 0 ∧ t.Commission = 0)
    (h2 : (t.Symbol, t.Date_Time) ∈ k) :
    markRule k t = { t with Action := "ASSIGNED" } := by
  unfold markRule; rw [if_pos h1, if_pos h2]

theorem markRule_eq_expired (k : List (String × String)) (t : Trade)
    (h1 : t.Security_Info ≠ "STOCK" ∧ t.Price = 0 ∧ t.Commission = 0)
    (h2 : (t.Symbol, t.Date_Time) ∉ k)
    (h3 : t.Action ≠ "ASSIGNED" ∧ t.Action ≠ "BOT" ∧ t.Action ≠ "SLD") :
    markRule k t = { t with Action := "EXPIRED" } := by
  unfold markRule; rw [if_pos h1, if_neg h2, if_pos h3]

theorem markRule_eq_keep (k : List (String × String)) (t : Trade)
    (h1 : t.Security_Info ≠ "STOCK" ∧ t.Price = 0 ∧ t.Commission = 0)
    (h2 : (t.Symbol, t.Date_Time) ∉ k)
    (h3 : ¬(t.Action ≠ "ASSIGNED" ∧ t.Action ≠ "BOT" ∧ t.Action ≠ "SLD")) :
    markRule k t = t := by
  unfold markRule; rw [if_pos h1, if_neg h2, if_neg h3]

theorem Trade_set_action_self (t : Trade) (a : String) (h : t.Action = a) :
    { t with Action := a } = t := by
  cases t
  cases h
  rfl

theorem markRule_idem (k : List (String × String)) (t : Trade) :
    markRule k (markRule k t) = markRule k t := by
  by_cases h1 : t.Security_Info ≠ "STOCK" ∧ t.Price = 0 ∧ t.Commission = 0
  · by_cases h2 : (t.Symbol, t.Date_Time) ∈ k
    · rw [markRule_eq_assigned k t h1 h2]
      rw [markRule_eq_assigned k { t with Action := "ASSIGNED" } h1 h2]
    · by_cases h3 : t.Action ≠ "ASSIGNED" ∧ t.Action ≠ "BOT" ∧ t.Action ≠ "SLD"
      · rw [markRule_eq_expired k t h1 h2 h3]
        rw [markRule_eq_expired k { t with Action := "EXPIRED" } h1 h2
          ⟨by show ("EXPIRED" : String) ≠ "ASSIGNED"; decide,
           by show ("EXPIRED" : String) ≠ "BOT"; decide,
           by show ("EXPIRED" : String) ≠ "SLD"; decide⟩]
      · rw [markRule_eq_keep k t h1 h2 h3, markRule_eq_keep k t h1 h2 h3]
  · rw [markRule_eq_of_not k t h1, markRule_eq_of_not k t h1]

theorem stockKeys_map_markRule (k : List (String × String)) (l : List Trade) :
    stockKeys (l.map (markRule k)) = stockKeys l := by
  induction l with
  | nil => rfl
  | cons t rest ih =>
    unfold stockKeys
    simp only [List.map_cons, List.filter_cons, markRule_Security_Info]
    by_cases hc : (t.Security_Info == "STOCK") = true
    · simp only [hc, if_true, List.map_cons, markRule_Symbol, markRule_Date_Time]
      unfold stockKeys at ih
      rw [ih]
    · simp only [hc, if_false, Bool.false_eq_true]
      unfold stockKeys at ih
      rw [ih]

theorem stockKeys_mem_iff (l : List Trade) (sym dt : String) :
    (sym, dt) ∈ stockKeys l ↔ hasStockKey l sym dt = true := by
  unfold stockKeys hasStockKey
  simp only [List.any_eq_true, List.mem_map, List.mem_filter, Bool.and_eq_true,
    beq_iff_eq, Prod.mk.injEq]
  constructor
  · rintro ⟨t, h⟩
    exact ⟨t, by tauto⟩
  · rintro ⟨t, h⟩
    exact ⟨t, by tauto⟩

/-! ## Claim theorems: normalization and the assignment classifier -/

/-- C4: for every execution whose commission record is present and carries a
realized-PnL float whose absolute value equals the platform sentinel
1.7976931348623157e+308, the normalized record produced by process_executions
has Realized_PnL empty, never a numeric value. -/
theorem sentinel_realized_pnl_empty (info : ExecInfo) (cm : CommMap)
    (cr : CommissionRecord) (q : ℚ) (t : Trade)
    (hl : cm.lookup info.execution.execId = some cr)
    (hp : cr.realizedPNL = some (.rfloat q))
    (hs : |q| = MAX_FLOAT_SENTINEL)
    (ht : processExecution info cm = .ok t) :
    t.Realized_PnL = none := by
  unfold processExecution at ht
  obtain ⟨s, -, rfl⟩ := processExecutionFrom_ok_elim ht
  show realizedOf cm info.execution.execId = none
  unfold realizedOf rawPnlOf
  rw [hl]
  show (match cr.realizedPNL with
    | none => none
    | some (.rfloat q) =>
      if q = MAX_FLOAT_SENTINEL ∨ q = -MAX_FLOAT_SENTINEL then none else some q
    | some (.rother conv) => conv) = (none : Option ℚ)
  rw [hp]
  have hq : q = MAX_FLOAT_SENTINEL ∨ q = -MAX_FLOAT_SENTINEL :=
    (abs_eq (by unfold MAX_FLOAT_SENTINEL; exact Nat.cast_nonneg _)).mp hs
  simp [hq]

/-- C6: normalization sets the initial Action to BOT exactly when the execution
side carries the bought code, and to SLD otherwise; the only later change inside
process_executions is the zero-price/zero-commission EXPIRED override, which the
first branch of the right-hand side accounts for.  (The side value for a bought
fill on the wire is the string BOT; the spec refers to it as the bought side.) -/
theorem initial_action_bot_sld (info : ExecInfo) (cm : CommMap) (t : Trade)
    (ht : processExecution info cm = .ok t) :
    t.Action = if t.Price = 0 ∧ t.Commission = 0 then "EXPIRED"
      else if info.execution.side = "BOT" then "BOT" else "SLD" := by
  unfold processExecution at ht
  obtain ⟨s, -, rfl⟩ := processExecutionFrom_ok_elim ht
  rfl

/-- C5: a non-stock normalized record with zero price and zero commission is
classified ASSIGNED by mark_assigned_options when the batch holds a stock record
with the same symbol and timestamp, and EXPIRED otherwise. -/
theorem assignment_vs_expiration (execs : List ExecInfo) (cm : CommMap)
    (td : List Trade) (i : Nat) (b a : Trade)
    (h : processExecutions execs cm = .ok td)
    (hb : td[i]? = some b)
    (hsec : b.Security_Info ≠ "STOCK") (hp : b.Price = 0) (hc : b.Commission = 0)
    (ha : (mark_assigned_options td)[i]? = some a) :
    a.Action = if hasStockKey td b.Symbol b.Date_Time then "ASSIGNED" else "EXPIRED" := by
  have hbmem : b ∈ td := List.getElem?_mem hb
  unfold processExecutions at h
  obtain ⟨e, -, p, he⟩ := processExecutionsFrom_mem execs cm none td h b hbmem
  have hexp : b.Action = "EXPIRED" := processExecutionFrom_zero_expired p e cm b he hp hc
  have ha' : a = markRule (stockKeys td) b := by
    unfold mark_assigned_options at ha
    rw [List.getElem?_map, hb] at ha
    injection ha with ha
    exact ha.symm
  subst ha'
  by_cases hk : (b.Symbol, b.Date_Time) ∈ stockKeys td
  · rw [markRule_eq_assigned _ _ ⟨hsec, hp, hc⟩ hk,
      if_pos ((stockKeys_mem_iff td _ _).mp hk)]
  · rw [markRule_eq_expired _ _ ⟨hsec, hp, hc⟩ hk
      ⟨by rw [hexp]; decide, by rw [hexp]; decide, by rw [hexp]; decide⟩,
      if_neg (fun hh => hk ((stockKeys_mem_iff td _ _).mpr hh))]

/-- C7: the assignment classifier changes the Action of a normalized record at
most once (the single pass applies markRule once per record), and only when that
Action is not one of ASSIGNED, BOT, SLD; in particular a normalized record that
enters with BOT or SLD leaves with the same Action. -/
theorem action_override_once (execs : List ExecInfo) (cm : CommMap)
    (td : List Trade) (i : Nat) (a b : Trade)
    (h : processExecutions execs cm = .ok td)
    (hb : td[i]? = some b)
    (ha : (mark_assigned_options td)[i]? = some a)
    (hne : a.Action ≠ b.Action) :
    ¬(b.Action = "ASSIGNED" ∨ b.Action = "BOT" ∨ b.Action = "SLD") := by
  have ha' : a = markRule (stockKeys td) b := by
    unfold mark_assigned_options at ha
    rw [List.getElem?_map, hb] at ha
    injection ha with ha
    exact ha.symm
  subst ha'
  by_cases h1 : b.Security_Info ≠ "STOCK" ∧ b.Price = 0 ∧ b.Commission = 0
  · have hbmem : b ∈ td := List.getElem?_mem hb
    unfold processExecutions at h
    obtain ⟨e, -, p, he⟩ := processExecutionsFrom_mem execs cm none td h b hbmem
    have hexp : b.Action = "EXPIRED" :=
      processExecutionFrom_zero_expired p e cm b he h1.2.1 h1.2.2
    rw [hexp]
    decide
  · rw [markRule_eq_of_not _ _ h1] at hne
    exact absurd rfl hne

/-- C9: the assignment classifier is idempotent: a second application changes no
field of any record. -/
theorem classifier_idempotent (l : List Trade) :
    mark_assigned_options (mark_assigned_options l) = mark_assigned_options l := by
  unfold mark_assigned_options
  rw [stockKeys_map_markRule, List.map_map]
  have hcomp : markRule (stockKeys l) ∘ markRule (stockKeys l) = markRule (stockKeys l) := by
    funext t
    exact markRule_idem _ t
  rw [hcomp]

/-! ## Combo-reconciler lemmas -/

theorem build_stocks (l : List Trade)
    (acc : List ((String × String) × List Trade) × List Trade × List Trade) :
    (l.foldl buildStep acc).2.1 = acc.2.1 ++ l.filter isStocks := by
  induction l generalizing acc with
  | nil => simp
  | cons t rest ih =>
    rw [List.foldl_cons, ih, List.filter_cons]
    by_cases hs : isStocks t = true
    · simp [buildStep, hs]
    · have hs' : isStocks t = false := by revert hs; cases isStocks t <;> simp
      cases hk : comboKey t <;> simp [buildStep, hs', hk]

theorem build_perr (l : List Trade)
    (acc : List ((String × String) × List Trade) × List Trade × List Trade) :
    (l.foldl buildStep acc).2.2 =
      acc.2.2 ++ l.filter (fun t => !(isStocks t) && (comboKey t).isNone) := by
  induction l generalizing acc with
  | nil => simp
  | cons t rest ih =>
    rw [List.foldl_cons, ih, List.filter_cons]
    by_cases hs : isStocks t = true
    · simp [buildStep, hs]
    · have hs' : isStocks t = false := by revert hs; cases isStocks t <;> simp
      cases hk : comboKey t <;> simp [buildStep, hs', hk]

theorem stocksOf_eq (l : List Trade) : stocksOf l = l.filter isStocks := by
  unfold stocksOf buildGroups
  rw [build_stocks]
  rfl

theorem perrOf_eq (l : List Trade) :
    perrOf l = l.filter (fun t => !(isStocks t) && (comboKey t).isNone) := by
  unfold perrOf buildGroups
  rw [build_perr]
  rfl

theorem insAsc_mem (t x : Trade) (l : List Trade) :
    x ∈ insAsc t l ↔ x = t ∨ x ∈ l := by
  induction l with
  | nil => simp [insAsc]
  | cons y ys ih =>
    unfold insAsc
    by_cases h : pfLt (strikeKey t) (strikeKey y) = true
    · rw [if_pos h]
      rw [List.mem_cons, List.mem_cons]
    · rw [if_neg h]
      rw [List.mem_cons, ih, List.mem_cons]
      tauto

theorem sortByStrike_aux_mem (l acc : List Trade) (x : Trade) :
    x ∈ l.foldl (fun a t => insAsc t a) acc ↔ x ∈ l ∨ x ∈ acc := by
  induction l generalizing acc with
  | nil => simp
  | cons t rest ih =>
    rw [List.foldl_cons, ih, insAsc_mem, List.mem_cons]
    tauto

theorem sortByStrike_mem (l : List Trade) (x : Trade) :
    x ∈ sortByStrike l ↔ x ∈ l := by
  unfold sortByStrike
  rw [sortByStrike_aux_mem]
  simp

theorem insDesc_mem (q x : PyFloat) (l : List PyFloat) :
    x ∈ insDesc q l ↔ x = q ∨ x ∈ l := by
  induction l with
  | nil => simp [insDesc]
  | cons y ys ih =>
    unfold insDesc
    by_cases h : pfLt y q = true
    · rw [if_pos h]
      rw [List.mem_cons, List.mem_cons]
    · rw [if_neg h]
      rw [List.mem_cons, ih, List.mem_cons]
      tauto

theorem sortDesc_aux_mem (l acc : List PyFloat) (x : PyFloat) :
    x ∈ l.foldl (fun a q => insDesc q a) acc ↔ x ∈ l ∨ x ∈ acc := by
  induction l generalizing acc with
  | nil => simp
  | cons q rest ih =>
    rw [List.foldl_cons, ih, insDesc_mem, List.mem_cons]
    tauto

theorem sortDesc_mem (l : List PyFloat) (x : PyFloat) :
    x ∈ sortDesc l ↔ x ∈ l := by
  unfold sortDesc
  rw [sortDesc_aux_mem]
  simp

theorem mk_ne_empty (cs : List Char) (h : cs ≠ []) : String.mk cs ≠ "" := by
  intro he
  apply h
  have h2 := congrArg String.data he
  simpa using h2

theorem wordsAux_mem_ne (cs : List Char) : ∀ (cur : List Char) (w : String),
    w ∈ wordsAux cs cur → w ≠ "" := by
  induction cs with
  | nil =>
    intro cur w hw
    unfold wordsAux at hw
    by_cases hc : cur = []
    · rw [if_pos hc] at hw
      cases hw
    · rw [if_neg hc] at hw
      rcases List.mem_singleton.mp hw with rfl
      exact mk_ne_empty _ (by simpa using hc)
  | cons c rest ih =>
    intro cur w hw
    unfold wordsAux at hw
    by_cases hws : c.isWhitespace = true
    · rw [if_pos hws] at hw
      by_cases hc : cur = []
      · rw [if_pos hc] at hw
        exact ih [] w hw
      · rw [if_neg hc] at hw
        rcases List.mem_cons.mp hw with rfl | hmem
        · exact mk_ne_empty _ (by simpa using hc)
        · exact ih [] w hmem
    · rw [if_neg hws] at hw
      exact ih _ w hw

theorem pySplit_mem_ne (s : String) (w : String) (hw : w ∈ pySplit s) : w ≠ "" :=
  wordsAux_mem_ne s.toList [] w hw

theorem comboExpiry_ne (ts : List Trade) (hok : parseOK ts = true)
    (hst : comboStrikes ts ≠ []) : comboExpiry ts ≠ "" := by
  cases hsort : sortByStrike (nonSmartOf ts) with
  | nil =>
    exfalso
    apply hst
    unfold comboStrikes
    rw [hsort]
    rfl
  | cons u us =>
    have hu : u ∈ nonSmartOf ts :=
      (sortByStrike_mem _ _).mp (hsort ▸ List.mem_cons_self u us)
    unfold parseOK at hok
    rw [List.all_eq_true] at hok
    have hu2 := hok u hu
    rw [Bool.and_eq_true] at hu2
    have hlen' : 3 ≤ (tok u).length := of_decide_eq_true hu2.1
    cases htok : tok u with
    | nil => rw [htok] at hlen'; simp at hlen'
    | cons w ws =>
      have hwmem : w ∈ tok u := by rw [htok]; exact List.mem_cons_self w ws
      have hwne : w ≠ "" := pySplit_mem_ne u.Security_Info w hwmem
      unfold comboExpiry
      rw [hsort]
      simp only [List.head?_cons, Option.map_some', Option.getD_some]
      rw [htok]
      simp only [List.headD_cons]
      exact hwne

theorem comboStrikes_mem (ts : List Trade) (q : PyFloat) (hq : q ∈ comboStrikes ts) :
    ∃ t ∈ ts, strikeOf t = some q := by
  unfold comboStrikes at hq
  obtain ⟨t, ht, hst⟩ := List.mem_filterMap.mp hq
  refine ⟨t, ?_, hst⟩
  have ht2 := (sortByStrike_mem _ _).mp ht
  exact (List.mem_filter.mp ht2).1

theorem comboStrikes_of_mem (ts : List Trade) (t : Trade) (ht : t ∈ nonSmartOf ts)
    (q : PyFloat) (hq : strikeOf t = some q) : q ∈ comboStrikes ts := by
  unfold comboStrikes
  exact List.mem_filterMap.mpr ⟨t, (sortByStrike_mem _ _).mpr ht, hq⟩

theorem pyIntStrs_overflow_mem (fs : List PyFloat) (h : pyIntStrs fs = .overflowError) :
    ∃ f ∈ fs, pfIsInf f = true := by
  induction fs with
  | nil => exact absurd h (by decide)
  | cons f fs ih =>
    unfold pyIntStrs at h
    cases f with
    | fin q =>
      dsimp only [pyIntStr] at h
      cases hr : pyIntStrs fs with
      | strs l => rw [hr] at h; exact StrsRes.noConfusion h
      | valueError => rw [hr] at h; exact StrsRes.noConfusion h
      | overflowError =>
        obtain ⟨g, hg, hginf⟩ := ih hr
        exact ⟨g, List.mem_cons_of_mem _ hg, hginf⟩
    | nan => dsimp only [pyIntStr] at h; exact StrsRes.noConfusion h
    | pinf => exact ⟨.pinf, List.mem_cons_self _ _, rfl⟩
    | ninf => exact ⟨.ninf, List.mem_cons_self _ _, rfl⟩

theorem comboMerge_parse_fail (ts : List Trade) (h : parseOK ts = false) :
    comboMerge ts = .ok none := by
  simp [comboMerge, h]

theorem comboMerge_eq_of_intOK (ts : List Trade) (hok : parseOK ts = true)
    (hint : intOK ts = true) :
    comboMerge ts = .ok (some (comboEmit (comboDescriptor ts) (comboNet ts) ts)) := by
  unfold comboMerge comboDescriptor
  rw [if_pos hok]
  by_cases hgate : comboStrikes ts ≠ [] ∧ comboExpiry ts ≠ ""
  · rw [if_pos hgate, if_pos hgate]
    cases hpi : pyIntStrs (topTwo ts) with
    | strs l => rfl
    | valueError =>
      exfalso
      unfold intOK at hint
      rw [hpi] at hint
      exact Bool.noConfusion hint
    | overflowError =>
      exfalso
      unfold intOK at hint
      rw [hpi] at hint
      exact Bool.noConfusion hint
  · rw [if_neg hgate, if_neg hgate]

theorem comboMerge_ok_some (ts : List Trade) (o : List Trade)
    (h : comboMerge ts = .ok (some o)) :
    parseOK ts = true ∧ intOK ts = true ∧
      o = comboEmit (comboDescriptor ts) (comboNet ts) ts := by
  by_cases hok : parseOK ts = true
  · have hint : intOK ts = true := by
      by_cases hgate : comboStrikes ts ≠ [] ∧ comboExpiry ts ≠ ""
      · unfold comboMerge at h
        rw [if_pos hok, if_pos hgate] at h
        cases hpi : pyIntStrs (topTwo ts) with
        | strs l => unfold intOK; rw [hpi]
        | valueError =>
          rw [hpi] at h
          injection h with h
          exact Option.noConfusion h
        | overflowError =>
          rw [hpi] at h
          exact Except.noConfusion h
      · have hst : comboStrikes ts = [] := by
          by_contra hst
          exact hgate ⟨hst, comboExpiry_ne ts hok hst⟩
        unfold intOK topTwo
        rw [hst]
        rfl
    refine ⟨hok, hint, ?_⟩
    have heq := comboMerge_eq_of_intOK ts hok hint
    rw [heq] at h
    injection h with h
    injection h with h
    exact h.symm
  · have hok' : parseOK ts = false := by revert hok; cases parseOK ts <;> simp
    rw [comboMerge_parse_fail ts hok'] at h
    injection h with h
    exact Option.noConfusion h

theorem comboMerge_ok_none (ts : List Trade) (h : comboMerge ts = .ok none) :
    parseOK ts = false ∨ intOK ts = false := by
  by_cases hok : parseOK ts = true
  · right
    by_cases hint : intOK ts = true
    · exfalso
      rw [comboMerge_eq_of_intOK ts hok hint] at h
      injection h with h
      exact Option.noConfusion h
    · revert hint; cases intOK ts <;> simp
  · left
    revert hok; cases parseOK ts <;> simp

theorem comboMerge_error_overflow (ts : List Trade) (u : Unit)
    (h : comboMerge ts = .error u) :
    pyIntStrs (topTwo ts) = .overflowError := by
  by_cases hok : parseOK ts = true
  · unfold comboMerge at h
    rw [if_pos hok] at h
    by_cases hgate : comboStrikes ts ≠ [] ∧ comboExpiry ts ≠ ""
    · rw [if_pos hgate] at h
      cases hpi : pyIntStrs (topTwo ts) with
      | strs l => rw [hpi] at h; exact Except.noConfusion h
      | valueError => rw [hpi] at h; exact Except.noConfusion h
      | overflowError => rfl
    · rw [if_neg hgate] at h
      exact Except.noConfusion h
  · exfalso
    have hok' : parseOK ts = false := by revert hok; cases parseOK ts <;> simp
    rw [comboMerge_parse_fail ts hok'] at h
    exact Except.noConfusion h

theorem comboEmit_length (c : String) (p : ℚ) (ts : List Trade) :
    (comboEmit c p ts).length = if ts.any isSmartB then countSmart ts else ts.length := by
  unfold comboEmit countSmart
  by_cases h : ts.any isSmartB = true
  · rw [if_pos h, if_pos h, List.length_map]
  · rw [if_neg h, if_neg h]

theorem processGroup_ok_length (ts out : List Trade) (h : processGroup ts = .ok out) :
    out.length = contribution ts := by
  unfold processGroup at h
  by_cases h1 : ts.length ≤ 1
  · rw [if_pos h1] at h
    injection h with h
    subst h
    unfold contribution
    rw [if_neg (fun hc => absurd hc.1 (by omega))]
  · rw [if_neg h1] at h
    by_cases h2 : ts.any (fun t => decide (t.Price < 0)) = true
    · rw [if_pos h2] at h
      cases hm : comboMerge ts with
      | error u => rw [hm] at h; exact Except.noConfusion h
      | ok r =>
        rw [hm] at h
        cases r with
        | none =>
          injection h with h
          subst h
          unfold contribution
          rcases comboMerge_ok_none ts hm with hp | hi
          · rw [if_neg (fun hc => absurd hc.2.2.1 (by rw [hp]; decide))]
          · rw [if_neg (fun hc => absurd hc.2.2.2.1 (by rw [hi]; decide))]
        | some o =>
          injection h with h
          subst h
          obtain ⟨hok, hint, ho⟩ := comboMerge_ok_some ts o hm
          rw [ho, comboEmit_length]
          unfold contribution
          by_cases h4 : ts.any isSmartB = true
          · rw [if_pos h4, if_pos ⟨by omega, h2, hok, hint, h4⟩]
          · rw [if_neg h4, if_neg (fun hc => h4 hc.2.2.2.2)]
    · rw [if_neg h2] at h
      injection h with h
      subst h
      unfold contribution
      rw [if_neg (fun hc => h2 hc.2.1)]

theorem processGroup_of_parse_fail (ts : List Trade) (h : parseOK ts = false) :
    processGroup ts = .ok ts := by
  unfold processGroup
  by_cases h1 : ts.length ≤ 1
  · rw [if_pos h1]
  · rw [if_neg h1]
    by_cases h2 : ts.any (fun t => decide (t.Price < 0)) = true
    · rw [if_pos h2, comboMerge_parse_fail ts h]
    · rw [if_neg h2]

theorem processGroup_merge (ts : List Trade) (h1 : 1 < ts.length)
    (h2 : ts.any (fun t => decide (t.Price < 0)) = true)
    (h3 : parseOK ts = true) (h4 : intOK ts = true) (h5 : ts.any isSmartB = true) :
    processGroup ts =
      .ok ((ts.filter isSmartB).map (updateSmart (comboDescriptor ts) (comboNet ts))) := by
  unfold processGroup
  rw [if_neg (by omega), if_pos h2, comboMerge_eq_of_intOK ts h3 h4]
  show Except.ok (comboEmit (comboDescriptor ts) (comboNet ts) ts) = _
  unfold comboEmit
  rw [if_pos h5]

theorem updateSmart_Exchange (c : String) (p : ℚ) (t : Trade) :
    (updateSmart c p t).Exchange = t.Exchange := by
  unfold updateSmart
  by_cases h1 : c = "" <;> by_cases h2 : p = 0 <;> simp [h1, h2]

theorem updateSmart_Security_Info (c : String) (p : ℚ) (t : Trade) (hc : c ≠ "") :
    (updateSmart c p t).Security_Info = c := by
  unfold updateSmart
  rw [if_neg hc]
  by_cases h2 : p = 0 <;> simp [h2]

theorem foldPnl_eq (cur : Option ℚ) (p : ℚ) :
    foldPnl cur p = some (cur.getD 0 + p) := by
  cases cur with
  | none => simp [foldPnl]
  | some q =>
    by_cases hq : q = 0
    · simp [foldPnl, hq]
    · simp [foldPnl, hq]

theorem updateSmart_Realized (c : String) (p : ℚ) (t : Trade) (hp : p ≠ 0) :
    (updateSmart c p t).Realized_PnL = some ((t.Realized_PnL).getD 0 + p) := by
  unfold updateSmart
  by_cases h1 : c = "" <;> simp [h1, hp, foldPnl_eq]

theorem processGroup_merge_all_smart (ts : List Trade) (h1 : 1 < ts.length)
    (h2 : ts.any (fun t => decide (t.Price < 0)) = true)
    (h3 : parseOK ts = true) (h4 : intOK ts = true) (h5 : ts.any isSmartB = true)
    (out : List Trade) (ho : processGroup ts = .ok out)
    (x : Trade) (hx : x ∈ out) : x.Exchange = "SMART" := by
  rw [processGroup_merge ts h1 h2 h3 h4 h5] at ho
  injection ho with ho
  subst ho
  obtain ⟨y, hy, rfl⟩ := List.mem_map.mp hx
  rw [updateSmart_Exchange]
  exact eq_of_beq (List.mem_filter.mp hy).2

theorem processGroup_ok_mem_cases (ts out : List Trade) (x : Trade)
    (h : processGroup ts = .ok out) (hx : x ∈ out) : x ∈ ts ∨ x.Exchange = "SMART" := by
  unfold processGroup at h
  by_cases h1 : ts.length ≤ 1
  · rw [if_pos h1] at h
    injection h with h
    subst h
    exact Or.inl hx
  · rw [if_neg h1] at h
    by_cases h2 : ts.any (fun t => decide (t.Price < 0)) = true
    · rw [if_pos h2] at h
      cases hm : comboMerge ts with
      | error u => rw [hm] at h; exact Except.noConfusion h
      | ok r =>
        rw [hm] at h
        cases r with
        | none =>
          injection h with h
          subst h
          exact Or.inl hx
        | some o =>
          injection h with h
          subst h
          obtain ⟨-, -, ho⟩ := comboMerge_ok_some ts o hm
          rw [ho] at hx
          unfold comboEmit at hx
          by_cases h4 : ts.any isSmartB = true
          · rw [if_pos h4] at hx
            obtain ⟨y, hy, rfl⟩ := List.mem_map.mp hx
            right
            rw [updateSmart_Exchange]
            exact eq_of_beq (List.mem_filter.mp hy).2
          · rw [if_neg h4] at hx
            exact Or.inl hx
    · rw [if_neg h2] at h
      injection h with h
      subst h
      exact Or.inl hx

theorem comboMerge_ok_of_safe (ts : List Trade)
    (hsafe : ∀ t ∈ ts, safeInfoStr t.Security_Info = true) :
    ∃ r, comboMerge ts = .ok r := by
  cases hm : comboMerge ts with
  | ok r => exact ⟨r, rfl⟩
  | error u =>
    exfalso
    have hover := comboMerge_error_overflow ts u hm
    obtain ⟨f, hf, hfinf⟩ := pyIntStrs_overflow_mem _ hover
    have hf' : f ∈ (sortDesc (comboStrikes ts)).take 2 := hf
    have hf2 : f ∈ sortDesc (comboStrikes ts) := List.take_subset _ _ hf'
    have hf3 : f ∈ comboStrikes ts := (sortDesc_mem _ _).mp hf2
    obtain ⟨t, ht, hst⟩ := comboStrikes_mem ts f hf3
    have hsafet := hsafe t ht
    unfold safeInfoStr at hsafet
    have hst' : strikeOfStr t.Security_Info = some f := hst
    rw [hst'] at hsafet
    simp [pfIsInfO, hfinf] at hsafet

theorem processGroup_ok_of_safe (ts : List Trade)
    (hsafe : ∀ t ∈ ts, safeInfoStr t.Security_Info = true) :
    ∃ o, processGroup ts = .ok o := by
  unfold processGroup
  by_cases h1 : ts.length ≤ 1
  · rw [if_pos h1]; exact ⟨ts, rfl⟩
  · rw [if_neg h1]
    by_cases h2 : ts.any (fun t => decide (t.Price < 0)) = true
    · rw [if_pos h2]
      obtain ⟨r, hr⟩ := comboMerge_ok_of_safe ts hsafe
      rw [hr]
      cases r with
      | none => exact ⟨ts, rfl⟩
      | some o => exact ⟨o, rfl⟩
    · rw [if_neg h2]; exact ⟨ts, rfl⟩

theorem emitGroups_ok_length (gs : List ((String × String) × List Trade))
    (es : List Trade) (h : emitGroups gs = .ok es) :
    es.length = (gs.map (fun p => contribution p.2)).sum := by
  induction gs generalizing es with
  | nil =>
    injection h with h
    subst h
    rfl
  | cons q rest ih =>
    unfold emitGroups at h
    cases hq : processGroup q.2 with
    | error u => rw [hq] at h; exact Except.noConfusion h
    | ok o =>
      rw [hq] at h
      cases hr : emitGroups rest with
      | error u => rw [hr] at h; exact Except.noConfusion h
      | ok os =>
        rw [hr] at h
        injection h with h
        subst h
        rw [List.length_append, processGroup_ok_length q.2 o hq, ih os hr,
          List.map_cons, List.sum_cons]

theorem emitGroups_ok_group (gs : List ((String × String) × List Trade))
    (es : List Trade) (h : emitGroups gs = .ok es)
    (p : (String × String) × List Trade) (hp : p ∈ gs) :
    ∃ o, processGroup p.2 = .ok o ∧ ∀ x ∈ o, x ∈ es := by
  induction gs generalizing es with
  | nil => cases hp
  | cons q rest ih =>
    unfold emitGroups at h
    cases hq : processGroup q.2 with
    | error u => rw [hq] at h; exact Except.noConfusion h
    | ok o0 =>
      rw [hq] at h
      cases hr : emitGroups rest with
      | error u => rw [hr] at h; exact Except.noConfusion h
      | ok os =>
        rw [hr] at h
        injection h with h
        subst h
        rcases List.mem_cons.mp hp with rfl | hmem
        · exact ⟨o0, hq, fun x hx => List.mem_append_left _ hx⟩
        · obtain ⟨o, ho, hsub⟩ := ih os hr hmem
          exact ⟨o, ho, fun x hx => List.mem_append_right _ (hsub x hx)⟩

theorem emitGroups_ok_mem (gs : List ((String × String) × List Trade))
    (es : List Trade) (x : Trade) (h : emitGroups gs = .ok es) (hx : x ∈ es) :
    ∃ p ∈ gs, ∃ o, processGroup p.2 = .ok o ∧ x ∈ o := by
  induction gs generalizing es with
  | nil =>
    injection h with h
    subst h
    cases hx
  | cons q rest ih =>
    unfold emitGroups at h
    cases hq : processGroup q.2 with
    | error u => rw [hq] at h; exact Except.noConfusion h
    | ok o0 =>
      rw [hq] at h
      cases hr : emitGroups rest with
      | error u => rw [hr] at h; exact Except.noConfusion h
      | ok os =>
        rw [hr] at h
        injection h with h
        subst h
        rcases List.mem_append.mp hx with hx0 | hxs
        · exact ⟨q, List.mem_cons_self _ _, o0, hq, hx0⟩
        · obtain ⟨p, hp, o, ho, hxo⟩ := ih os hr hxs
          exact ⟨p, List.mem_cons_of_mem _ hp, o, ho, hxo⟩

theorem emitGroups_ok_exists (gs : List ((String × String) × List Trade))
    (h : ∀ p ∈ gs, ∃ o, processGroup p.2 = .ok o) : ∃ es, emitGroups gs = .ok es := by
  induction gs with
  | nil => exact ⟨[], rfl⟩
  | cons q rest ih =>
    obtain ⟨o, ho⟩ := h q (List.mem_cons_self _ _)
    obtain ⟨es, hes⟩ := ih (fun p hp => h p (List.mem_cons_of_mem _ hp))
    refine ⟨o ++ es, ?_⟩
    unfold emitGroups
    rw [ho, hes]

theorem comboDescriptor_ne (ts : List Trade) (hok : parseOK ts = true)
    (hns : nonSmartOf ts ≠ []) : comboDescriptor ts ≠ "" := by
  obtain ⟨t0, ht0⟩ := List.exists_mem_of_ne_nil _ hns
  have ht0s : t0 ∈ sortByStrike (nonSmartOf ts) := (sortByStrike_mem _ _).mpr ht0
  have hok' := hok
  unfold parseOK at hok'
  rw [List.all_eq_true] at hok'
  have h2 := hok' t0 ht0
  rw [Bool.and_eq_true] at h2
  obtain ⟨q, hq⟩ := Option.isSome_iff_exists.mp h2.2
  have hqmem : q ∈ comboStrikes ts := by
    unfold comboStrikes
    exact List.mem_filterMap.mpr ⟨t0, ht0s, hq⟩
  have hst : comboStrikes ts ≠ [] := List.ne_nil_of_mem hqmem
  have hexp : comboExpiry ts ≠ "" := comboExpiry_ne ts hok hst
  unfold comboDescriptor
  rw [if_pos ⟨hst, hexp⟩]
  intro hcontra
  have hlc := congrArg String.length hcontra
  rw [String.length_append, String.length_append] at hlc
  have h1 : (" " : String).length = 1 := rfl
  have h0 : ("" : String).length = 0 := rfl
  omega

/-! ## Grouping invariants -/

theorem insertGroup_forall (P : (String × String) → Trade → Prop)
    (gs : List ((String × String) × List Trade)) (k : String × String) (t : Trade)
    (H : ∀ p ∈ gs, ∀ x ∈ p.2, P p.1 x) (Ht : P k t) :
    ∀ p ∈ insertGroup k t gs, ∀ x ∈ p.2, P p.1 x := by
  induction gs with
  | nil =>
    intro p hp x hx
    unfold insertGroup at hp
    rcases List.mem_singleton.mp hp with rfl
    rcases List.mem_singleton.mp hx with rfl
    exact Ht
  | cons q rest ih =>
    obtain ⟨k', g⟩ := q
    intro p hp x hx
    unfold insertGroup at hp
    by_cases hk : k' = k
    · rw [if_pos hk] at hp
      rcases List.mem_cons.mp hp with rfl | hmem
      · rcases List.mem_append.mp hx with hxg | hxt
        · exact H (k', g) (List.mem_cons_self _ _) x hxg
        · rcases List.mem_singleton.mp hxt with rfl
          rw [hk]
          exact Ht
      · exact H p (List.mem_cons_of_mem _ hmem) x hx
    · rw [if_neg hk] at hp
      rcases List.mem_cons.mp hp with rfl | hmem
      · exact H (k', g) (List.mem_cons_self _ _) x hx
      · exact ih (fun p2 hp2 => H p2 (List.mem_cons_of_mem _ hp2)) p hmem x hx

theorem insertGroup_keys_mem (gs : List ((String × String) × List Trade))
    (k : String × String) (t : Trade) (hk : k ∈ gs.map Prod.fst) :
    (insertGroup k t gs).map Prod.fst = gs.map Prod.fst := by
  induction gs with
  | nil => cases hk
  | cons q rest ih =>
    obtain ⟨k', g⟩ := q
    unfold insertGroup
    by_cases he : k' = k
    · rw [if_pos he]
      rfl
    · rw [if_neg he]
      rw [List.map_cons, List.map_cons]
      rcases List.mem_cons.mp hk with h | h
      · exact absurd h.symm he
      · rw [ih h]

theorem insertGroup_keys_not_mem (gs : List ((String × String) × List Trade))
    (k : String × String) (t : Trade) (hk : k ∉ gs.map Prod.fst) :
    (insertGroup k t gs).map Prod.fst = gs.map Prod.fst ++ [k] := by
  induction gs with
  | nil => rfl
  | cons q rest ih =>
    obtain ⟨k', g⟩ := q
    unfold insertGroup
    rw [List.map_cons] at hk
    have hk1 : ¬(k' = k) := fun he => hk (List.mem_cons.mpr (Or.inl he.symm))
    rw [if_neg hk1, List.map_cons, List.map_cons,
      ih (fun hm => hk (List.mem_cons.mpr (Or.inr hm)))]
    rfl

theorem insertGroup_nodup (gs : List ((String × String) × List Trade))
    (k : String × String) (t : Trade) (h : (gs.map Prod.fst).Nodup) :
    ((insertGroup k t gs).map Prod.fst).Nodup := by
  by_cases hk : k ∈ gs.map Prod.fst
  · rw [insertGroup_keys_mem gs k t hk]
    exact h
  · rw [insertGroup_keys_not_mem gs k t hk]
    rw [List.nodup_append]
    exact ⟨h, List.nodup_singleton _,
      fun x hx hmem => hk (by rcases List.mem_singleton.mp hmem with rfl; exact hx)⟩

theorem build_groups_inv (l : List Trade)
    (acc : List ((String × String) × List Trade) × List Trade × List Trade)
    (H1 : ∀ p ∈ acc.1, ∀ x ∈ p.2, comboKey x = some p.1 ∧ isStocks x = false)
    (H2 : (acc.1.map Prod.fst).Nodup) :
    (∀ p ∈ (l.foldl buildStep acc).1, ∀ x ∈ p.2,
      comboKey x = some p.1 ∧ isStocks x = false) ∧
    ((l.foldl buildStep acc).1.map Prod.fst).Nodup := by
  induction l generalizing acc with
  | nil => exact ⟨H1, H2⟩
  | cons t rest ih =>
    rw [List.foldl_cons]
    by_cases hs : isStocks t = true
    · have hstep : (buildStep acc t).1 = acc.1 := by
        unfold buildStep
        rw [if_pos hs]
      exact ih (buildStep acc t) (by rw [hstep]; exact H1) (by rw [hstep]; exact H2)
    · have hs' : isStocks t = false := by revert hs; cases isStocks t <;> simp
      cases hck : comboKey t with
      | some k =>
        have hstep : (buildStep acc t).1 = insertGroup k t acc.1 := by
          unfold buildStep
          rw [if_neg hs, hck]
        exact ih (buildStep acc t)
          (by rw [hstep]
              exact insertGroup_forall
                (fun k2 x => comboKey x = some k2 ∧ isStocks x = false)
                acc.1 k t H1 ⟨hck, hs'⟩)
          (by rw [hstep]; exact insertGroup_nodup acc.1 k t H2)
      | none =>
        have hstep : (buildStep acc t).1 = acc.1 := by
          unfold buildStep
          rw [if_neg hs, hck]
        exact ih (buildStep acc t) (by rw [hstep]; exact H1) (by rw [hstep]; exact H2)

theorem groupsOf_inv (l : List Trade) :
    (∀ p ∈ groupsOf l, ∀ x ∈ p.2, comboKey x = some p.1 ∧ isStocks x = false) ∧
    ((groupsOf l).map Prod.fst).Nodup := by
  unfold groupsOf buildGroups
  exact build_groups_inv l ([], [], []) (fun p hp => absurd hp (List.not_mem_nil p))
    (by simp)

theorem assoc_nodup_eq (gs : List ((String × String) × List Trade))
    (h : (gs.map Prod.fst).Nodup) (k : String × String) (g g' : List Trade)
    (h1 : (k, g) ∈ gs) (h2 : (k, g') ∈ gs) : g = g' := by
  induction gs with
  | nil => cases h1
  | cons q rest ih =>
    rw [List.map_cons, List.nodup_cons] at h
    rcases List.mem_cons.mp h1 with he1 | hm1 <;> rcases List.mem_cons.mp h2 with he2 | hm2
    · have heq := he1.trans he2.symm
      injection heq
    · exfalso
      apply h.1
      have hq1 : q.1 = k := congrArg Prod.fst he1.symm
      rw [hq1]
      exact List.mem_map.mpr ⟨(k, g'), hm2, rfl⟩
    · exfalso
      apply h.1
      have hq1 : q.1 = k := congrArg Prod.fst he2.symm
      rw [hq1]
      exact List.mem_map.mpr ⟨(k, g), hm1, rfl⟩
    · exact ih h.2 hm1 hm2

theorem build_groups_forall (P : Trade → Prop) (l : List Trade) :
    ∀ (acc : List ((String × String) × List Trade) × List Trade × List Trade),
    (∀ p ∈ acc.1, ∀ x ∈ p.2, P x) → (∀ t ∈ l, P t) →
    ∀ p ∈ (l.foldl buildStep acc).1, ∀ x ∈ p.2, P x := by
  induction l with
  | nil =>
    intro acc H _
    exact H
  | cons t rest ih =>
    intro acc H Hl
    rw [List.foldl_cons]
    by_cases hs : isStocks t = true
    · have hstep : (buildStep acc t).1 = acc.1 := by
        unfold buildStep
        rw [if_pos hs]
      exact ih (buildStep acc t) (by rw [hstep]; exact H)
        (fun u hu => Hl u (List.mem_cons_of_mem _ hu))
    · cases hk : comboKey t with
      | some k =>
        have hstep : (buildStep acc t).1 = insertGroup k t acc.1 := by
          unfold buildStep
          rw [if_neg hs, hk]
        refine ih (buildStep acc t) ?_ (fun u hu => Hl u (List.mem_cons_of_mem _ hu))
        rw [hstep]
        exact insertGroup_forall (fun k2 x => P x) acc.1 k t H
          (Hl t (List.mem_cons_self _ _))
      | none =>
        have hstep : (buildStep acc t).1 = acc.1 := by
          unfold buildStep
          rw [if_neg hs, hk]
        exact ih (buildStep acc t) (by rw [hstep]; exact H)
          (fun u hu => Hl u (List.mem_cons_of_mem _ hu))

theorem groupsOf_mem_sub (l : List Trade) :
    ∀ p ∈ groupsOf l, ∀ x ∈ p.2, x ∈ l := by
  unfold groupsOf buildGroups
  exact build_groups_forall (fun x => x ∈ l) l ([], [], [])
    (fun p hp => absurd hp (List.not_mem_nil p)) (fun t ht => ht)

/-! ## Pipeline totality under well-formed inputs -/

theorem process_combos_ok_of_safe (l : List Trade)
    (hsafe : ∀ t ∈ l, safeInfoStr t.Security_Info = true) :
    ∃ out, process_combos l = .ok out := by
  have hg : ∀ p ∈ groupsOf l, ∃ o, processGroup p.2 = .ok o := by
    intro p hp
    refine processGroup_ok_of_safe p.2 ?_
    intro t ht
    exact hsafe t (groupsOf_mem_sub l p hp t ht)
  obtain ⟨es, hes⟩ := emitGroups_ok_exists _ hg
  refine ⟨es ++ stocksOf l ++ perrOf l, ?_⟩
  unfold process_combos
  rw [hes]

theorem mark_safe (l : List Trade)
    (h : ∀ t ∈ l, safeInfoStr t.Security_Info = true) :
    ∀ t ∈ mark_assigned_options l, safeInfoStr t.Security_Info = true := by
  intro t ht
  unfold mark_assigned_options at ht
  obtain ⟨u, hu, rfl⟩ := List.mem_map.mp ht
  rw [markRule_Security_Info]
  exact h u hu

theorem processExecutionsFrom_wf (execs : List ExecInfo) (cm : CommMap) :
    ∀ (prev : Option String),
    (∀ s, prev = some s → safeInfoStr s = true) →
    wfBatch prev.isSome execs = true →
    ∃ td, processExecutionsFrom prev execs cm = .ok td ∧
      ∀ t ∈ td, safeInfoStr t.Security_Info = true := by
  induction execs with
  | nil =>
    intro prev _ _
    exact ⟨[], rfl, fun t ht => absurd ht (List.not_mem_nil t)⟩
  | cons i rest ih =>
    intro prev hprev hwf
    unfold wfBatch at hwf
    by_cases hstk : i.contract.secType = "STK"
    · rw [if_pos hstk] at hwf
      have hsec : securityInfo prev i.contract = .ok "STOCK" := by
        unfold securityInfo
        rw [if_pos hstk]
      have hpe : processExecutionFrom prev i cm = .ok (normalizeTrade i cm "STOCK") := by
        unfold processExecutionFrom
        rw [hsec]
      have hinfo : (normalizeTrade i cm "STOCK").Security_Info = "STOCK" := rfl
      obtain ⟨td, htd, hsafe⟩ := ih (some "STOCK")
        (fun s hx => by injection hx with hx; exact hx ▸ (by decide)) hwf
      refine ⟨normalizeTrade i cm "STOCK" :: td, ?_, ?_⟩
      · unfold processExecutionsFrom
        rw [hpe]
        dsimp only
        rw [hinfo, htd]
      · intro t ht
        rcases List.mem_cons.mp ht with rfl | hmem
        · rw [hinfo]; decide
        · exact hsafe t hmem
    · rw [if_neg hstk] at hwf
      by_cases hopt : i.contract.secType = "OPT" ∨ i.contract.secType = "FOP"
      · rw [if_pos hopt] at hwf
        rw [Bool.and_eq_true, Bool.and_eq_true] at hwf
        obtain ⟨⟨hexp, hninf⟩, hrest⟩ := hwf
        unfold expiryOK at hexp
        cases hp : expiryParts i.contract.lastTradeDateOrContractMonth with
        | none =>
          rw [hp] at hexp
          exact absurd hexp (by decide)
        | some ymd =>
          obtain ⟨y, m, d⟩ := ymd
          rw [hp] at hexp
          dsimp only at hexp
          have hm : m ≤ 12 := of_decide_eq_true hexp
          have hninf' : pfIsInf i.contract.strike = false := by
            revert hninf
            cases pfIsInf i.contract.strike <;> simp
          have hsec : securityInfo prev i.contract =
              .ok (monthName m ++ "'" ++ pad2 d ++ "'" ++ lastTwo (toString y) ++ " " ++
                strikeRepr i.contract.strike ++ " " ++
                (if i.contract.right = "C" then "CALL" else "PUT")) := by
            unfold securityInfo
            rw [if_neg hstk, if_pos hopt, hp]
            dsimp only
            rw [if_pos hm]
          have hsafeS : safeInfoStr (monthName m ++ "'" ++ pad2 d ++ "'" ++
              lastTwo (toString y) ++ " " ++ strikeRepr i.contract.strike ++ " " ++
              (if i.contract.right = "C" then "CALL" else "PUT")) = true :=
            safeInfoStr_generated m d y hm _ hninf' _
          have hpe : processExecutionFrom prev i cm =
              .ok (normalizeTrade i cm (monthName m ++ "'" ++ pad2 d ++ "'" ++
                lastTwo (toString y) ++ " " ++ strikeRepr i.contract.strike ++ " " ++
                (if i.contract.right = "C" then "CALL" else "PUT"))) := by
            unfold processExecutionFrom
            rw [hsec]
          have hinfo : (normalizeTrade i cm (monthName m ++ "'" ++ pad2 d ++ "'" ++
              lastTwo (toString y) ++ " " ++ strikeRepr i.contract.strike ++ " " ++
              (if i.contract.right = "C" then "CALL" else "PUT"))).Security_Info =
              monthName m ++ "'" ++ pad2 d ++ "'" ++ lastTwo (toString y) ++ " " ++
                strikeRepr i.contract.strike ++ " " ++
                (if i.contract.right = "C" then "CALL" else "PUT") := rfl
          obtain ⟨td, htd, hsafe⟩ := ih (some (monthName m ++ "'" ++ pad2 d ++ "'" ++
              lastTwo (toString y) ++ " " ++ strikeRepr i.contract.strike ++ " " ++
              (if i.contract.right = "C" then "CALL" else "PUT")))
            (fun s hx => by injection hx with hx; exact hx ▸ hsafeS) hrest
          refine ⟨normalizeTrade i cm (monthName m ++ "'" ++ pad2 d ++ "'" ++
              lastTwo (toString y) ++ " " ++ strikeRepr i.contract.strike ++ " " ++
              (if i.contract.right = "C" then "CALL" else "PUT")) :: td, ?_, ?_⟩
          · unfold processExecutionsFrom
            rw [hpe]
            dsimp only
            rw [hinfo, htd]
          · intro t ht
            rcases List.mem_cons.mp ht with rfl | hmem
            · rw [hinfo]
              exact hsafeS
            · exact hsafe t hmem
      · rw [if_neg hopt] at hwf
        rw [Bool.and_eq_true] at hwf
        obtain ⟨hassigned, hrest⟩ := hwf
        cases prev with
        | none => exact absurd hassigned (by decide)
        | some s =>
          have hsafeS : safeInfoStr s = true := hprev s rfl
          have hsec : securityInfo (some s) i.contract = .ok s := by
            unfold securityInfo
            rw [if_neg hstk, if_neg hopt]
          have hpe : processExecutionFrom (some s) i cm =
              .ok (normalizeTrade i cm s) := by
            unfold processExecutionFrom
            rw [hsec]
          have hinfo : (normalizeTrade i cm s).Security_Info = s := rfl
          obtain ⟨td, htd, hsafe⟩ := ih (some s)
            (fun s2 hx => by injection hx with hx; exact hx ▸ hsafeS) hrest
          refine ⟨normalizeTrade i cm s :: td, ?_, ?_⟩
          · unfold processExecutionsFrom
            rw [hpe]
            dsimp only
            rw [hinfo, htd]
          · intro t ht
            rcases List.mem_cons.mp ht with rfl | hmem
            · rw [hinfo]
              exact hsafeS
            · exact hsafe t hmem

/-! ## Claim theorems: exception behavior, counts, tolerance, SMART membership -/

/-- C2 (amended): the core pipeline (process_executions, then
mark_assigned_options, then process_combos) returns normally and raises no
exception for every batch in which each record, in batch order, is: a stock
contract; an option or future-option contract whose expiry string has parseable
integer slices at characters 0-4, 4-6 and 6-8 with a month value of at most 12
and whose strike is not an infinite float; or a contract of any other
instrument class, provided an earlier record already assigned the loop-local
security_info (the Python local persists across iterations; such a record
silently reuses the previous security description instead of raising
NameError).  Outside that set the pipeline can raise (see the counterexample):
a non-STK/OPT/FOP record with the local still unassigned raises NameError at
the record construction, an unparseable expiry slice raises ValueError from
int(), and an infinite strike renders as the token inf in Security_Info, which
float() accepts in process_combos so that int(float('inf')) raises an
uncaught OverflowError when such a leg takes part in a merging group. -/
theorem pipeline_no_exception (execs : List ExecInfo) (cm : CommMap)
    (h : wfBatch false execs = true) :
    coreOk (corePipeline execs cm) = true := by
  obtain ⟨td, htd, hsafe⟩ := processExecutionsFrom_wf execs cm none
    (fun s hx => Option.noConfusion hx) h
  unfold corePipeline processExecutions
  rw [htd]
  dsimp only
  obtain ⟨out, hout⟩ := process_combos_ok_of_safe _ (mark_safe td hsafe)
  rw [hout]
  rfl

/-- C2 counterexample: the pipeline raises for a FUT contract with the local
unassigned (NameError) and for an OPT contract with an unparseable expiry
(ValueError); a batch of two well-formed OPT fills whose non-SMART leg has an
infinite strike normalizes without error but then raises the uncaught
OverflowError inside process_combos; and a FUT record preceded by a stock
record does not raise at all, reusing the stale local. -/
theorem pipeline_exception_counterexample :
    coreOk (corePipeline [cex2fut] []) = false ∧
    coreOk (corePipeline [cex2opt] []) = false ∧
    coreOk (processExecutions [cex2inf1, cex2inf2] []) = true ∧
    coreOk (corePipeline [cex2inf1, cex2inf2] []) = false ∧
    coreOk (corePipeline [w2stk, cex2fut] []) = true := by
  exact ⟨rfl, rfl, rfl, rfl, rfl⟩

/-- C2 witness: a concrete well-formed batch runs to completion. -/
theorem pipeline_no_exception_instance :
    coreOk (corePipeline [w2stk, w2opt] []) = true :=
  pipeline_no_exception [w2stk, w2opt] [] (by decide)

/-- C8 (amended): in any group with combo evidence (a negative price), a strike
parse failing with the caught IndexError or ValueError (the second
whitespace-delimited token of a non-SMART member's Security_Info missing or
rejected by float()) makes process_combos emit every record of the group
unchanged, provided process_combos returns at all.  The original claim's
further assertion that no exception escapes process_combos is false: a second
token of inf or -inf is accepted by float(), int(float('inf')) at the combo
merge then raises OverflowError, which except (IndexError, ValueError) does
not catch, and the exception escapes with no record emitted (see the
counterexample). -/
theorem strike_parse_tolerance (l : List Trade) (k : String × String)
    (g out : List Trade)
    (hg : (k, g) ∈ groupsOf l)
    (hneg : g.any (fun t => decide (t.Price < 0)) = true)
    (hfail : ∃ t ∈ nonSmartOf g, strikeOf t = none)
    (hout : process_combos l = .ok out) :
    ∀ t ∈ g, t ∈ out := by
  have hpok : parseOK g = false := by
    cases hpt : parseOK g with
    | false => rfl
    | true =>
      exfalso
      obtain ⟨t0, ht0, hs0⟩ := hfail
      unfold parseOK at hpt
      rw [List.all_eq_true] at hpt
      have h2 := hpt t0 ht0
      rw [Bool.and_eq_true, hs0] at h2
      exact absurd h2.2 (by decide)
  have hpg : processGroup g = .ok g := processGroup_of_parse_fail g hpok
  intro t ht
  unfold process_combos at hout
  cases hes : emitGroups (groupsOf l) with
  | error u => rw [hes] at hout; exact Except.noConfusion hout
  | ok es =>
    rw [hes] at hout
    injection hout with hout
    subst hout
    obtain ⟨o, ho, hsub⟩ := emitGroups_ok_group _ es hes (k, g) hg
    have ho' : processGroup g = .ok o := ho
    rw [hpg] at ho'
    injection ho' with ho'
    refine List.mem_append_left _ (List.mem_append_left _ (hsub t ?_))
    rw [← ho']
    exact ht

/-- C8 counterexample: a two-record group with combo evidence whose non-SMART
leg carries the strike token inf: float() parses the token, so the strike
parse does not fail with a caught exception; instead int(float('inf')) raises
the uncaught OverflowError and process_combos returns nothing at all,
refuting the claimed tolerance. -/
theorem strike_parse_tolerance_counterexample :
    strikeOf cex8a = some .pinf ∧
    cex8a.Price < 0 ∧
    groupsOf [cex8a, cex8b] = [(("XYZ", "01.03.2024 15:30:00"), [cex8a, cex8b])] ∧
    process_combos [cex8a, cex8b] = .error () := by
  exact ⟨by decide, by decide, by decide, by decide⟩

/-- C8 witness: a concrete two-record group with a negative price and a
one-token Security_Info on the non-SMART member passes both records through. -/
theorem strike_parse_tolerance_instance :
    process_combos [w8a, w8b] = .ok [w8a, w8b] ∧
    w8a ∈ ([w8a, w8b] : List Trade) ∧ w8b ∈ ([w8a, w8b] : List Trade) := by
  have h := strike_parse_tolerance [w8a, w8b] ("XYZ", "01.03.2024 15:30:00")
    [w8a, w8b] [w8a, w8b] (by decide) (by decide) ⟨w8a, by decide, by decide⟩ (by decide)
  exact ⟨by decide, h w8a (by decide), h w8b (by decide)⟩

/-- C1 (amended): for a batch of exactly three records sharing symbol XYZ and
timestamp 01.03.2024 15:30:00 - two non-SMART legs with Security_Info
MAR'15'24 100 CALL (Realized_PnL 50) and MAR'15'24 105 CALL (Realized_PnL -20),
at least one of the two with negative price, and a third SMART record whose
Security_Info is not the plural marker STOCKS (the amendment; a STOCKS record is
diverted to the pass-through list, see the counterexample) - process_combos
returns normally and the ledger is exactly the SMART record with Security_Info
MAR'15'24 105/100 and Realized_PnL equal to its prior numeric value plus 30
(30 when previously empty, since getD reads the empty value as 0), and the two
non-SMART legs are absent from every normally returned ledger. -/
theorem combo_netting_example (r1 r2 r3 : Trade)
    (h1s : r1.Symbol = "XYZ") (h2s : r2.Symbol = "XYZ") (h3s : r3.Symbol = "XYZ")
    (h1d : r1.Date_Time = "01.03.2024 15:30:00")
    (h2d : r2.Date_Time = "01.03.2024 15:30:00")
    (h3d : r3.Date_Time = "01.03.2024 15:30:00")
    (h1e : r1.Exchange ≠ "SMART") (h2e : r2.Exchange ≠ "SMART")
    (h3e : r3.Exchange = "SMART")
    (h1i : r1.Security_Info = "MAR'15'24 100 CALL")
    (h2i : r2.Security_Info = "MAR'15'24 105 CALL")
    (h3i : r3.Security_Info ≠ "STOCKS")
    (h1r : r1.Realized_PnL = some 50) (h2r : r2.Realized_PnL = some (-20))
    (hneg : r1.Price < 0 ∨ r2.Price < 0) :
    process_combos [r1, r2, r3] = .ok [updateSmart "MAR'15'24 105/100" 30 r3] ∧
    (updateSmart "MAR'15'24 105/100" 30 r3).Security_Info = "MAR'15'24 105/100" ∧
    (updateSmart "MAR'15'24 105/100" 30 r3).Realized_PnL =
      some ((r3.Realized_PnL).getD 0 + 30) ∧
    (∀ out, process_combos [r1, r2, r3] = .ok out → r1 ∉ out) ∧
    (∀ out, process_combos [r1, r2, r3] = .ok out → r2 ∉ out) := by
  have hb1 : isSmartB r1 = false := by
    unfold isSmartB
    exact beq_eq_false_iff_ne.mpr h1e
  have hb2 : isSmartB r2 = false := by
    unfold isSmartB
    exact beq_eq_false_iff_ne.mpr h2e
  have hb3 : isSmartB r3 = true := by
    unfold isSmartB
    rw [h3e]
    rfl
  have hs1 : isStocks r1 = false := by
    unfold isStocks
    rw [h1i]
    rfl
  have hs2 : isStocks r2 = false := by
    unfold isStocks
    rw [h2i]
    rfl
  have hs3 : isStocks r3 = false := by
    unfold isStocks
    exact beq_eq_false_iff_ne.mpr h3i
  have hk1 : comboKey r1 = some ("XYZ", "01.03.2024 15:30:00") := by
    unfold comboKey
    rw [h1d, h1s]
    rfl
  have hk2 : comboKey r2 = some ("XYZ", "01.03.2024 15:30:00") := by
    unfold comboKey
    rw [h2d, h2s]
    rfl
  have hk3 : comboKey r3 = some ("XYZ", "01.03.2024 15:30:00") := by
    unfold comboKey
    rw [h3d, h3s]
    rfl
  have hstep1 : buildStep ([], [], []) r1 =
      ([(("XYZ", "01.03.2024 15:30:00"), [r1])], [], []) := by
    simp [buildStep, hs1, hk1, insertGroup]
  have hstep2 : buildStep ([(("XYZ", "01.03.2024 15:30:00"), [r1])], [], []) r2 =
      ([(("XYZ", "01.03.2024 15:30:00"), [r1, r2])], [], []) := by
    simp [buildStep, hs2, hk2, insertGroup]
  have hstep3 : buildStep ([(("XYZ", "01.03.2024 15:30:00"), [r1, r2])], [], []) r3 =
      ([(("XYZ", "01.03.2024 15:30:00"), [r1, r2, r3])], [], []) := by
    simp [buildStep, hs3, hk3, insertGroup]
  have hbuild : buildGroups [r1, r2, r3] =
      ([(("XYZ", "01.03.2024 15:30:00"), [r1, r2, r3])], [], []) := by
    unfold buildGroups
    rw [List.foldl_cons, hstep1, List.foldl_cons, hstep2, List.foldl_cons, hstep3,
      List.foldl_nil]
  have hgroups : groupsOf [r1, r2, r3] =
      [(("XYZ", "01.03.2024 15:30:00"), [r1, r2, r3])] := by
    unfold groupsOf
    rw [hbuild]
  have hstocks : stocksOf [r1, r2, r3] = [] := by
    unfold stocksOf
    rw [hbuild]
  have hperr : perrOf [r1, r2, r3] = [] := by
    unfold perrOf
    rw [hbuild]
  have htok1 : tok r1 = ["MAR'15'24", "100", "CALL"] := by
    unfold tok
    rw [h1i]
    rfl
  have htok2 : tok r2 = ["MAR'15'24", "105", "CALL"] := by
    unfold tok
    rw [h2i]
    rfl
  have hst1 : strikeOf r1 = some (.fin 100) := by
    unfold strikeOf strikeOfStr
    rw [h1i]
    decide
  have hst2 : strikeOf r2 = some (.fin 105) := by
    unfold strikeOf strikeOfStr
    rw [h2i]
    decide
  have hns : nonSmartOf [r1, r2, r3] = [r1, r2] := by
    simp [nonSmartOf, List.filter_cons, hb1, hb2, hb3]
  have hpok : parseOK [r1, r2, r3] = true := by
    unfold parseOK
    rw [hns]
    simp [htok1, htok2, hst1, hst2]
  have hanysm : [r1, r2, r3].any isSmartB = true := by
    simp [List.any_cons, hb3]
  have hneg' : [r1, r2, r3].any (fun t => decide (t.Price < 0)) = true := by
    rcases hneg with h | h
    · simp [List.any_cons, decide_eq_true h]
    · simp [List.any_cons, decide_eq_true h]
  have hfilter : [r1, r2, r3].filter isSmartB = [r3] := by
    simp [List.filter_cons, hb1, hb2, hb3]
  have hkey1 : strikeKey r1 = .fin 100 := by
    unfold strikeKey
    rw [hst1]
    rfl
  have hkey2 : strikeKey r2 = .fin 105 := by
    unfold strikeKey
    rw [hst2]
    rfl
  have hins : insAsc r2 [r1] = [r1, r2] := by
    unfold insAsc
    rw [hkey1, hkey2, if_neg (by decide)]
    rfl
  have hsort : sortByStrike [r1, r2] = [r1, r2] := by
    show insAsc r2 (insAsc r1 []) = [r1, r2]
    rw [show insAsc r1 [] = [r1] from rfl, hins]
  have hfm : List.filterMap strikeOf [r1, r2] = [.fin 100, .fin 105] := by
    simp [List.filterMap_cons, hst1, hst2]
  have hstrikes : comboStrikes [r1, r2, r3] = [.fin 100, .fin 105] := by
    unfold comboStrikes
    rw [hns, hsort]
    exact hfm
  have hexp : comboExpiry [r1, r2, r3] = "MAR'15'24" := by
    unfold comboExpiry
    rw [hns, hsort]
    simp only [List.head?_cons, Option.map_some', Option.getD_some]
    rw [htok1]
    simp only [List.headD_cons]
  have hintOK : intOK [r1, r2, r3] = true := by
    unfold intOK topTwo
    rw [hstrikes]
    decide
  have hdesc : comboDescriptor [r1, r2, r3] = "MAR'15'24 105/100" := by
    unfold comboDescriptor topTwo
    rw [hstrikes, hexp]
    decide
  have hnet : comboNet [r1, r2, r3] = 30 := by
    unfold comboNet
    rw [hns]
    dsimp only [List.foldl]
    rw [h1r, h2r]
    norm_num
  have hmerge : comboMerge [r1, r2, r3] =
      .ok (some [updateSmart "MAR'15'24 105/100" 30 r3]) := by
    rw [comboMerge_eq_of_intOK _ hpok hintOK, hdesc, hnet]
    show Except.ok (some (comboEmit "MAR'15'24 105/100" 30 [r1, r2, r3])) = _
    unfold comboEmit
    rw [if_pos hanysm, hfilter]
    rfl
  have hpg : processGroup [r1, r2, r3] = .ok [updateSmart "MAR'15'24 105/100" 30 r3] := by
    unfold processGroup
    rw [if_neg (by simp : ¬([r1, r2, r3].length ≤ 1)), if_pos hneg', hmerge]
  have hemit : emitGroups [(("XYZ", "01.03.2024 15:30:00"), [r1, r2, r3])] =
      .ok [updateSmart "MAR'15'24 105/100" 30 r3] := by
    unfold emitGroups
    dsimp only
    rw [hpg]
    rfl
  have hout : process_combos [r1, r2, r3] =
      .ok [updateSmart "MAR'15'24 105/100" 30 r3] := by
    unfold process_combos
    rw [hgroups, hemit, hstocks, hperr]
    simp
  refine ⟨hout,
    updateSmart_Security_Info _ _ _ (by decide),
    updateSmart_Realized _ _ _ (by decide),
    ?_, ?_⟩
  · intro out hout2 hmem
    rw [hout] at hout2
    injection hout2 with hout2
    subst hout2
    have hx := congrArg Trade.Exchange (List.mem_singleton.mp hmem)
    rw [updateSmart_Exchange, h3e] at hx
    exact h1e hx
  · intro out hout2 hmem
    rw [hout] at hout2
    injection hout2 with hout2
    subst hout2
    have hx := congrArg Trade.Exchange (List.mem_singleton.mp hmem)
    rw [updateSmart_Exchange, h3e] at hx
    exact h2e hx

/-- C1 counterexample: when the SMART record's Security_Info is the plural
marker STOCKS, it is diverted to the pass-through list before grouping, the two
legs merge with no SMART member present, and the whole batch is emitted
unchanged: the legs are not dropped and no record carries the descriptor. -/
theorem combo_netting_counterexample :
    cex1c.Exchange = "SMART" ∧
    cex1a.Price < 0 ∧
    process_combos [cex1a, cex1b, cex1c] = .ok [cex1a, cex1b, cex1c] ∧
    cex1c.Security_Info = "STOCKS" := by
  exact ⟨by decide, by decide, by decide, by decide⟩

/-- C1 witness: a concrete instance of the three-record batch nets the legs into
the SMART record (prior Realized_PnL 7 becomes 37) and drops both legs. -/
theorem combo_netting_example_instance :
    process_combos [w1a, w1b, w1c] = .ok [updateSmart "MAR'15'24 105/100" 30 w1c] ∧
    (updateSmart "MAR'15'24 105/100" 30 w1c).Security_Info = "MAR'15'24 105/100" ∧
    (updateSmart "MAR'15'24 105/100" 30 w1c).Realized_PnL =
      some ((w1c.Realized_PnL).getD 0 + 30) ∧
    w1a ∉ [updateSmart "MAR'15'24 105/100" 30 w1c] ∧
    w1b ∉ [updateSmart "MAR'15'24 105/100" 30 w1c] := by
  have h := combo_netting_example w1a w1b w1c rfl rfl rfl rfl rfl rfl
    (by decide) (by decide) rfl rfl rfl (by decide) rfl rfl (Or.inl (by decide))
  exact ⟨h.1, h.2.1, h.2.2.1, h.2.2.2.1 _ h.1, h.2.2.2.2 _ h.1⟩

/-- C4 witness: a stock fill whose commission entry carries the sentinel float
normalizes with an empty Realized_PnL. -/
theorem sentinel_realized_pnl_empty_instance : w4t.Realized_PnL = none :=
  sentinel_realized_pnl_empty w4info w4cm w4rec MAX_FLOAT_SENTINEL w4t
    rfl rfl (abs_of_nonneg (by unfold MAX_FLOAT_SENTINEL; exact Nat.cast_nonneg _)) rfl

/-- C6 witness: a bought stock fill with nonzero price gets Action BOT. -/
theorem initial_action_bot_sld_instance :
    t5a.Action = if t5a.Price = 0 ∧ t5a.Commission = 0 then "EXPIRED"
      else if e5a.execution.side = "BOT" then "BOT" else "SLD" :=
  initial_action_bot_sld e5a [] t5a rfl

/-- C5 witness: the zero-price, zero-commission option record alongside a stock
record with the same symbol and timestamp is classified ASSIGNED. -/
theorem assignment_vs_expiration_instance :
    t5c.Action =
      if hasStockKey [t5a, t5b] t5b.Symbol t5b.Date_Time then "ASSIGNED"
      else "EXPIRED" :=
  assignment_vs_expiration [e5a, e5b] [] [t5a, t5b] 1 t5b t5c
    rfl rfl (by decide) rfl rfl rfl

/-- C7 witness: the one record the classifier relabels (EXPIRED to ASSIGNED)
entered with an Action outside ASSIGNED, BOT, SLD. -/
theorem action_override_once_instance :
    ¬(t5b.Action = "ASSIGNED" ∨ t5b.Action = "BOT" ∨ t5b.Action = "SLD") :=
  action_override_once [e5a, e5b] [] [t5a, t5b] 1 t5c t5b
    rfl rfl rfl (by decide)
